import Mathlib

/-!
# A verification model of the go-reddit-storage persistence engine

This file gives a shallow embedding, in Lean, of the storage layer of the
`go-reddit-storage` repository: the comment/post/subreddit upsert paths of the
PostgreSQL backend (`postgres/comments.go`, `postgres/posts.go`,
`postgres/postgres.go`) and the SQLite backend (`sqlite/comments.go`,
`sqlite/posts.go`, `sqlite/sqlite.go`), the thread-reconstruction query
`GetCommentsByPost`, and the schema migration runner (`schema/schema.go`).

Modelling conventions:

* The relational store is a record of three row lists (`subs`, `posts`,
  `comments`).  SQL statements are modelled by their row-level effect,
  including the `NOT NULL` / foreign-key constraints declared in the
  migration scripts (`posts.subreddit REFERENCES subreddits(name)`,
  `comments.post_id REFERENCES posts(id)`,
  `comments.parent_id REFERENCES comments(id)`; the SQLite backend turns
  `PRAGMA foreign_keys = ON`).  A failing statement makes the surrounding Go
  function return a `StorageError`; errors are modelled by the `Op` string
  the Go code wraps them with.
* `NOW()` / `CURRENT_TIMESTAMP` is modelled by an explicit clock argument
  `t : Nat` passed to every write operation.
* `json.Marshal` is modelled as an injective encoding: the `raw` field of a
  row stores the input record itself; marshalling never fails on the record
  types involved.
* Timestamps (`created_utc` etc.) are modelled as `Nat` seconds.  Go string
  slicing such as `s[3:]` acts on ASCII identifiers, so `String.drop`
  coincides with it.
* The recursive depth resolver of `PostgresStorage.SaveComments` has no
  termination guarantee in Go; it is embedded with an explicit fuel
  parameter, and exhausting every fuel models non-termination (the batch
  entry point returns `Option`, with `none` for a run that never finishes).
-/

namespace RedditStore

/-- Input record for a comment: the fields of `types.Comment` that the
storage layer reads (`ID`, `LinkID`, `ParentID`, `Author`, `Body`, `Score`,
`CreatedUTC`, `Edited`). -/
structure Comment where
  id : String
  linkId : String
  parentId : String
  author : String
  body : String
  score : Int
  created : Nat
  isEdited : Bool
  editedTs : Nat
  deriving Repr, DecidableEq

/-- Input record for a post: the fields of `types.Post` that the storage
layer reads.  `upvote_ratio` and `is_video` are always written as
`nil` / `false` by the Go code ("not available"), so they are constant and
omitted from the model. -/
structure Post where
  id : String
  subreddit : String
  author : String
  title : String
  selftext : String
  url : String
  score : Int
  numComments : Int
  created : Nat
  isEdited : Bool
  editedTs : Nat
  isSelf : Bool
  deriving Repr, DecidableEq

/-- Input record for a subreddit (`types.SubredditData`). -/
structure SubredditData where
  displayName : String
  title : String
  description : String
  subscribers : Int
  deriving Repr, DecidableEq

/-- A row of the `comments` table. `archivedAt` models `archived_at`
(defaulted at insert, never touched again); `lastUpdated` models
`last_updated` (set on insert and on every upsert). -/
structure CommentRow where
  id : String
  postId : String
  parentId : Option String
  author : String
  body : String
  score : Int
  depth : Nat
  created : Nat
  edited : Option Nat
  raw : Comment
  archivedAt : Nat
  lastUpdated : Nat
  deriving Repr, DecidableEq

/-- A row of the `posts` table. -/
structure PostRow where
  id : String
  subreddit : String
  author : String
  title : String
  selftext : String
  url : String
  score : Int
  numComments : Int
  created : Nat
  edited : Option Nat
  isSelf : Bool
  raw : Post
  archivedAt : Nat
  lastUpdated : Nat
  deriving Repr, DecidableEq

/-- A row of the `subreddits` table.  `created_utc` is always written as
`nil` ("not available in API"), kept here to record that it is never
touched after insert. -/
structure SubRow where
  name : String
  displayName : String
  title : String
  description : String
  subscribers : Int
  createdUtc : Option Nat
  raw : SubredditData
  lastSynced : Nat
  deriving Repr, DecidableEq

/-- The relational store. -/
structure DB where
  subs : List SubRow
  posts : List PostRow
  comments : List CommentRow
  deriving Repr, DecidableEq

/-- Go slicing `s[3:]` guarded by `len(s) > 3`, as used on fullname ids. -/
def goDrop3 (s : String) : String :=
  if s.length > 3 then s.drop 3 else s

/-- The `parent_id` column value computed by both single-save paths and by
the per-row insert of both batch paths: `NULL` when `ParentID` is empty or
equals the post fullname `LinkID`, else `ParentID` with its first three
bytes stripped. -/
def deriveParent (c : Comment) : Option String :=
  if c.parentId = "" ∨ c.parentId = c.linkId then none
  else some (goDrop3 c.parentId)

/-- The `post_id` column value: `LinkID` with the `t3_` prefix stripped. -/
def derivePostId (c : Comment) : String :=
  goDrop3 c.linkId

/-- The `edited_utc` column value: the timestamp when the record is marked
edited with a positive timestamp, else `NULL`.  (Both backends reduce to
this: the Postgres code requires `Edited.IsEdited` and a nonzero timestamp,
the SQLite code requires `Edited.IsEdited && Timestamp > 0`.) -/
def editedCol (isEdited : Bool) (ts : Nat) : Option Nat :=
  if isEdited ∧ ts > 0 then some ts else none

/-- `SELECT ... FROM comments WHERE id = ?`. -/
def findComment (l : List CommentRow) (i : String) : Option CommentRow :=
  l.find? (fun r => r.id = i)

/-- The comment row inserted by every save path (the `INSERT` column list is
identical in all four functions). -/
def commentRow (t : Nat) (depth : Nat) (c : Comment) : CommentRow :=
  { id := c.id
    postId := derivePostId c
    parentId := deriveParent c
    author := c.author
    body := c.body
    score := c.score
    depth := depth
    created := c.created
    edited := editedCol c.isEdited c.editedTs
    raw := c
    archivedAt := t
    lastUpdated := t }

/-- The `ON CONFLICT (id) DO UPDATE` clause shared by `SaveComment` (both
backends) and by the SQLite `SaveComments`: refresh `score`, `body`,
`edited_utc`, `last_updated`, `raw_json`. -/
def updateCommentCommon (t : Nat) (new r : CommentRow) : CommentRow :=
  { r with
    score := new.score
    body := new.body
    edited := new.edited
    raw := new.raw
    lastUpdated := t }

/-- The `ON CONFLICT (id) DO UPDATE` clause of the Postgres `SaveComments`,
which additionally rewrites `depth = EXCLUDED.depth`. -/
def updateCommentWithDepth (t : Nat) (new r : CommentRow) : CommentRow :=
  { updateCommentCommon t new r with depth := new.depth }

/-- Effect of one `INSERT ... ON CONFLICT (id) DO UPDATE` statement on the
`comments` table, including the declared constraints: on the insert path
`post_id` must reference an existing post and a non-`NULL` `parent_id` must
reference a comment row visible to the statement (the freshly inserted row
included, as the constraint is checked after the row is placed).  `none`
models a constraint violation, which the Go code surfaces as an error. -/
def upsertComment (posts : List PostRow) (l : List CommentRow) (row : CommentRow)
    (upd : CommentRow → CommentRow) : Option (List CommentRow) :=
  if l.any (fun r => r.id = row.id) then
    some (l.map (fun r => if r.id = row.id then upd r else r))
  else if posts.any (fun p => p.id = row.postId) &&
      (match row.parentId with
       | none => true
       | some pid => pid = row.id || l.any (fun r => r.id = pid)) then
    some (l ++ [row])
  else
    none

namespace PG

/-- Depth computed by `PostgresStorage.SaveComment`: `0` when the derived
`parent_id` is `NULL`; otherwise the stored parent's depth plus one when the
parent id is found in the `comments` table, and `1` when it is not (the code
comment reads "If parent not found, assume depth 1 (direct reply to post)"). -/
def singleDepth (db : DB) (c : Comment) : Nat :=
  match deriveParent c with
  | none => 0
  | some pid =>
    match findComment db.comments pid with
    | some p => p.depth + 1
    | none => 1

/-- `PostgresStorage.SaveComment`: one upsert statement against the live
connection; the second component is the `StorageError.Op` on failure. -/
def saveComment (t : Nat) (db : DB) (c : Comment) : DB × Option String :=
  match upsertComment db.posts db.comments (commentRow t (singleDepth db c) c)
      (updateCommentCommon t (commentRow t (singleDepth db c) c)) with
  | some cs => ({ db with comments := cs }, none)
  | none => (db, some "save_comment")

/-- The in-batch map `commentID -> parentID` built by
`PostgresStorage.SaveComments`; the parent value is `""` when `ParentID` is
empty or equals `LinkID`, else `ParentID` stripped of a leading `"t1_"`
(other parent values of length > 3 are kept whole here, unlike the per-row
insert which strips the first three bytes unconditionally).  Later map
writes shadow earlier ones, as in a Go map. -/
def buildCommentMap (cs : List Comment) : List (String × String) :=
  cs.foldl
    (fun m c =>
      let parentID :=
        if c.parentId ≠ "" ∧ c.parentId ≠ c.linkId then
          if c.parentId.length > 3 ∧ c.parentId.take 3 = "t1_" then c.parentId.drop 3
          else c.parentId
        else ""
      (c.id, parentID) :: m)
    []

/-- The memoised recursive `calculateDepth` closure of
`PostgresStorage.SaveComments`.  `m` is the in-batch map, `txc` the comment
rows visible to the enclosing transaction, `cache` the `depthCache` map.
The Go closure recurses with no termination guard; `fuel` bounds the
recursion here and a result of `none` (for every fuel) models
non-termination.  Note the structure of the Go code: when `commentID` has no
map entry the local `parentID` is the zero value `""`, so the
`if parentID != ""` database branch below it is unreachable; it is embedded
nevertheless, exactly as written. -/
def calculateDepth (m : List (String × String)) (txc : List CommentRow) :
    Nat → String → List (String × Nat) → Option (Nat × List (String × Nat))
  | 0, _, _ => none
  | fuel + 1, commentID, cache =>
    match List.lookup commentID cache with
    | some d => some (d, cache)
    | none =>
      let pOpt := List.lookup commentID m
      let parentID := pOpt.getD ""
      if pOpt = none ∨ parentID = "" then
        match (if parentID ≠ "" then
                (findComment txc parentID).map (fun p => p.depth + 1)
              else none) with
        | some d => some (d, (commentID, d) :: cache)
        | none => some (0, (commentID, 0) :: cache)
      else
        match calculateDepth m txc fuel parentID cache with
        | none => none
        | some (d, cache') => some (d + 1, (commentID, d + 1) :: cache')

/-- The per-comment loop of `PostgresStorage.SaveComments`: for each comment
compute the depth through `calculateDepth`, then run the prepared upsert
inside the transaction.  An `Except.error` aborts the loop (the deferred
`tx.Rollback` then discards `txc`); `none` models a run of `calculateDepth`
that never returns. -/
def saveCommentsLoop (t : Nat) (m : List (String × String)) (posts : List PostRow) :
    List Comment → List CommentRow → List (String × Nat) →
    Option (Except String (List CommentRow))
  | [], txc, _ => some (.ok txc)
  | c :: rest, txc, cache =>
    match calculateDepth m txc (m.length + 1) c.id cache with
    | none => none
    | some (depth, cache') =>
      let row := commentRow t depth c
      match upsertComment posts txc row (updateCommentWithDepth t row) with
      | none => some (.error "insert_comment")
      | some txc' => saveCommentsLoop t m posts rest txc' cache'

/-- `PostgresStorage.SaveComments`: empty batches return at once; otherwise
the batch runs in one transaction whose commit replaces the `comments`
table and whose rollback leaves the store untouched.  `none` models a call
that never returns (unbounded recursion in `calculateDepth`). -/
def saveComments (t : Nat) (db : DB) (cs : List Comment) :
    Option (DB × Option String) :=
  match cs with
  | [] => some (db, none)
  | _ :: _ =>
    let m := buildCommentMap cs
    match saveCommentsLoop t m db.posts cs db.comments [] with
    | none => none
    | some (.error op) => some (db, some op)
    | some (.ok txc) => some ({ db with comments := txc }, none)

end PG

namespace SQLite

/-- Depth computed by both SQLite save paths: `0` for a `NULL` parent, `1`
for any non-`NULL` parent — the parent's stored depth is never consulted. -/
def singleDepth (c : Comment) : Nat :=
  match deriveParent c with
  | none => 0
  | some _ => 1

/-- `SQLiteStorage.SaveComment`. -/
def saveComment (t : Nat) (db : DB) (c : Comment) : DB × Option String :=
  match upsertComment db.posts db.comments (commentRow t (singleDepth c) c)
      (updateCommentCommon t (commentRow t (singleDepth c) c)) with
  | some cs => ({ db with comments := cs }, none)
  | none => (db, some "save_comment")

/-- The per-comment loop of `SQLiteStorage.SaveComments` (no depth
resolver: each row gets `singleDepth`). -/
def saveCommentsLoop (t : Nat) (posts : List PostRow) :
    List Comment → List CommentRow → Except String (List CommentRow)
  | [], txc => .ok txc
  | c :: rest, txc =>
    let row := commentRow t (singleDepth c) c
    match upsertComment posts txc row (updateCommentCommon t row) with
    | none => .error "insert_comment"
    | some txc' => saveCommentsLoop t posts rest txc'

/-- `SQLiteStorage.SaveComments`: empty batches return at once; otherwise
one transaction, all-or-nothing. -/
def saveComments (t : Nat) (db : DB) (cs : List Comment) : DB × Option String :=
  match cs with
  | [] => (db, none)
  | _ :: _ =>
    match saveCommentsLoop t db.posts cs db.comments with
    | .error op => (db, some op)
    | .ok txc => ({ db with comments := txc }, none)

end SQLite

/-- The record `types.SubredditData{DisplayName: name}` built by the post
save paths before calling `SaveSubreddit`. -/
def subOnly (name : String) : SubredditData :=
  { displayName := name, title := "", description := "", subscribers := 0 }

/-- The subreddit row inserted by `SaveSubreddit` (both backends bind the
same values: `name` and `display_name` from `DisplayName`, `created_utc`
always `nil`, `last_synced` from the database clock). -/
def subRow (t : Nat) (s : SubredditData) : SubRow :=
  { name := s.displayName
    displayName := s.displayName
    title := s.title
    description := s.description
    subscribers := s.subscribers
    createdUtc := none
    raw := s
    lastSynced := t }

/-- `SaveSubreddit` (textually identical upsert in both backends): insert,
or on `name` conflict refresh `display_name`, `title`, `description`,
`subscribers`, `last_synced`, `raw_json`. -/
def saveSubreddit (t : Nat) (db : DB) (s : SubredditData) : DB × Option String :=
  if db.subs.any (fun r => r.name = s.displayName) then
    ({ db with
       subs := db.subs.map (fun r =>
         if r.name = s.displayName then
           { r with
             displayName := s.displayName
             title := s.title
             description := s.description
             subscribers := s.subscribers
             raw := s
             lastSynced := t }
         else r) }, none)
  else
    ({ db with subs := db.subs ++ [subRow t s] }, none)

/-- The post row inserted by every post save path. -/
def postRow (t : Nat) (p : Post) : PostRow :=
  { id := p.id
    subreddit := p.subreddit
    author := p.author
    title := p.title
    selftext := p.selftext
    url := p.url
    score := p.score
    numComments := p.numComments
    created := p.created
    edited := editedCol p.isEdited p.editedTs
    isSelf := p.isSelf
    raw := p
    archivedAt := t
    lastUpdated := t }

/-- The `ON CONFLICT (id) DO UPDATE` clause of the post upserts: refresh
`score`, `num_comments`, `edited_utc`, `last_updated`, `raw_json`.  (The
batch paths and the SQLite single path also list `upvote_ratio`, which the
Go code always binds to `nil`; the constantly-`NULL` column is omitted from
the model, making all four update clauses coincide.) -/
def updatePostRow (t : Nat) (new r : PostRow) : PostRow :=
  { r with
    score := new.score
    numComments := new.numComments
    edited := new.edited
    raw := new.raw
    lastUpdated := t }

/-- Effect of one post `INSERT ... ON CONFLICT (id) DO UPDATE` statement:
on the insert path `subreddit` must reference an existing subreddit row
(`posts.subreddit NOT NULL REFERENCES subreddits(name)`); `none` models the
constraint violation. -/
def upsertPost (subs : List SubRow) (l : List PostRow) (row : PostRow)
    (upd : PostRow → PostRow) : Option (List PostRow) :=
  if l.any (fun r => r.id = row.id) then
    some (l.map (fun r => if r.id = row.id then upd r else r))
  else if subs.any (fun s => s.name = row.subreddit) then
    some (l ++ [row])
  else
    none

/-- The "ensure subreddit exists first" step of `SavePost`: when the post
names a subreddit, `SaveSubreddit` runs as a separate, immediately
committed statement. -/
def savePostPre (t : Nat) (db : DB) (p : Post) : DB :=
  if p.subreddit ≠ "" then (saveSubreddit t db (subOnly p.subreddit)).1 else db

/-- `SavePost` (both backends): the subreddit pre-step, then one upsert of
the post row. -/
def savePost (t : Nat) (db : DB) (p : Post) : DB × Option String :=
  match upsertPost (savePostPre t db p).subs (savePostPre t db p).posts
      (postRow t p) (updatePostRow t (postRow t p)) with
  | some ps => ({ savePostPre t db p with posts := ps }, none)
  | none => (savePostPre t db p, some "save_post")

/-- The "ensure subreddits exist" pre-pass of `SavePosts` (both backends):
iterate the batch, and for each not-yet-seen non-empty subreddit name call
`SaveSubreddit` — on the live connection `s.db`, *outside* the batch
transaction, so these writes survive a later rollback. -/
def ensureSubs (t : Nat) (db : DB) (ps : List Post) : DB :=
  (ps.foldl
    (fun (acc : DB × List String) p =>
      if p.subreddit ≠ "" ∧ ¬ acc.2.contains p.subreddit then
        ((saveSubreddit t acc.1 (subOnly p.subreddit)).1, p.subreddit :: acc.2)
      else acc)
    (db, [])).1

/-- The per-post loop of `SavePosts` (both backends): prepared upsert per
post inside the transaction, aborting on the first failure. -/
def savePostsLoop (t : Nat) (subs : List SubRow) :
    List Post → List PostRow → Except String (List PostRow)
  | [], rows => .ok rows
  | p :: rest, rows =>
    let row := postRow t p
    match upsertPost subs rows row (updatePostRow t row) with
    | none => .error "insert_post"
    | some rows' => savePostsLoop t subs rest rows'

/-- `SavePosts` (both backends): empty batches return at once; otherwise
the subreddit pre-pass runs outside the transaction, then the post upserts
run inside it — commit replaces the `posts` table, rollback (on the first
failing post) leaves `posts` as before the call while the pre-pass writes
remain. -/
def savePosts (t : Nat) (db : DB) (ps : List Post) : DB × Option String :=
  match ps with
  | [] => (db, none)
  | _ :: _ =>
    let db1 := ensureSubs t db ps
    match savePostsLoop t db1.subs ps db1.posts with
    | .error op => (db1, some op)
    | .ok rows => ({ db1 with posts := rows }, none)

/-- A comment record as scanned back by `GetCommentsByPost`: fullnames are
reconstructed (`LinkID = "t3_" + post_id`; `ParentID = "t1_" + parent_id`,
or the post fullname for top-level rows), and the `Edited` field is rebuilt
from `edited_utc`.  The stored `depth` is scanned into a local variable and
dropped. -/
structure OutComment where
  id : String
  linkId : String
  parentId : String
  author : String
  body : String
  score : Int
  created : Nat
  isEdited : Bool
  editedTs : Nat
  deriving Repr, DecidableEq

/-- The row-to-record reconstruction performed by the scan loop of
`GetCommentsByPost` (both backends). -/
def rowToOut (r : CommentRow) : OutComment :=
  let linkId := "t3_" ++ r.postId
  { id := r.id
    linkId := linkId
    parentId :=
      match r.parentId with
      | some p => "t1_" ++ p
      | none => linkId
    author := r.author
    body := r.body
    score := r.score
    created := r.created
    isEdited := r.edited.isSome
    editedTs := r.edited.getD 0 }

namespace PG

/-- One iteration level of the recursive CTE of
`PostgresStorage.GetCommentsByPost`.  Level 0 holds the top-level rows of
the post (`post_id = $1 AND parent_id IS NULL`) with path `ARRAY
[created_utc]`; level `n+1` joins `comments c ON c.parent_id = ct.id`
against level `n` (note: with no `post_id` filter, as in the SQL) with path
`ct.path || c.created_utc`. -/
def threadLevel (comments : List CommentRow) (pid : String) :
    Nat → List (CommentRow × List Nat)
  | 0 =>
    (comments.filter (fun r => decide (r.postId = pid ∧ r.parentId = none))).map
      (fun r => (r, [r.created]))
  | n + 1 =>
    ((threadLevel comments pid n).map (fun pr =>
      (comments.filter (fun r => decide (r.parentId = some pr.1.id))).map
        (fun r => (r, pr.2 ++ [r.created])))).flatten

/-- The full working set of the recursive CTE.  The iteration stops once a
level is empty; with acyclic parent links every row is reached within
`comments.length` joins, so levels `0 .. comments.length` are exhaustive. -/
def threadPairs (comments : List CommentRow) (pid : String) :
    List (CommentRow × List Nat) :=
  ((List.range (comments.length + 1)).map (threadLevel comments pid)).flatten

/-- `ORDER BY path` over Postgres arrays: lexicographic comparison of the
`created_utc` arrays. -/
def pathLe (a b : CommentRow × List Nat) : Prop :=
  a.2 ≤ b.2

instance : DecidableRel pathLe :=
  fun a b => inferInstanceAs (Decidable (a.2 ≤ b.2))

instance : IsTotal (CommentRow × List Nat) pathLe :=
  ⟨fun a b => le_total a.2 b.2⟩

instance : IsTrans (CommentRow × List Nat) pathLe :=
  ⟨fun _ _ _ => le_trans⟩

/-- The CTE result sorted by path. -/
def threadSorted (comments : List CommentRow) (pid : String) :
    List (CommentRow × List Nat) :=
  List.insertionSort pathLe (threadPairs comments pid)

/-- `PostgresStorage.GetCommentsByPost`: the sorted CTE rows scanned back
into comment records (an empty result set yields the empty list, not an
error). -/
def getCommentsByPost (db : DB) (pid : String) : List OutComment :=
  (threadSorted db.comments pid).map (fun pr => rowToOut pr.1)

end PG

/-- SQLite stores `created_utc` in a `TEXT` column, so the float second
count written by the Go code is rendered as text; for the integral second
values of this model the stored text of `v` is `"v.0"`. -/
def sqliteTimeText (v : Nat) : List Char :=
  Nat.toDigits 10 v ++ ['.', '0']

namespace SQLite

/-- One iteration level of the recursive CTE of
`SQLiteStorage.GetCommentsByPost`: identical shape to the Postgres one,
except that the path key is built by *string concatenation*
(`created_utc as path`, then `ct.path || c.created_utc`). -/
def threadLevel (comments : List CommentRow) (pid : String) :
    Nat → List (CommentRow × List Char)
  | 0 =>
    (comments.filter (fun r => decide (r.postId = pid ∧ r.parentId = none))).map
      (fun r => (r, sqliteTimeText r.created))
  | n + 1 =>
    ((threadLevel comments pid n).map (fun pr =>
      (comments.filter (fun r => decide (r.parentId = some pr.1.id))).map
        (fun r => (r, pr.2 ++ sqliteTimeText r.created)))).flatten

/-- The full working set of the SQLite recursive CTE. -/
def threadPairs (comments : List CommentRow) (pid : String) :
    List (CommentRow × List Char) :=
  ((List.range (comments.length + 1)).map (threadLevel comments pid)).flatten

/-- `ORDER BY path` over SQLite `TEXT` values: bytewise (lexicographic)
comparison of the concatenated text keys. -/
def pathLe (a b : CommentRow × List Char) : Prop :=
  a.2 ≤ b.2

instance : DecidableRel pathLe :=
  fun a b => inferInstanceAs (Decidable (a.2 ≤ b.2))

instance : IsTotal (CommentRow × List Char) pathLe :=
  ⟨fun a b => le_total a.2 b.2⟩

instance : IsTrans (CommentRow × List Char) pathLe :=
  ⟨fun _ _ _ => le_trans⟩

/-- The SQLite CTE result sorted by its text path. -/
def threadSorted (comments : List CommentRow) (pid : String) :
    List (CommentRow × List Char) :=
  List.insertionSort pathLe (threadPairs comments pid)

/-- `SQLiteStorage.GetCommentsByPost`. -/
def getCommentsByPost (db : DB) (pid : String) : List OutComment :=
  (threadSorted db.comments pid).map (fun pr => rowToOut pr.1)

end SQLite

namespace Schema

/-- A migration definition (`schema.Migration`): version parsed from the
filename, the filename itself, and the SQL script. -/
structure Migration where
  version : Nat
  name : String
  sql : String
  deriving Repr, DecidableEq

/-- The state the migration runner acts on: the `schema_version` ledger
(`none` while the table does not exist yet; each record is
`(version, name, applied_at)`) and the list of schema scripts successfully
executed, in order. -/
structure MigDB where
  ledger : Option (List (Nat × String × Nat))
  applied : List String
  deriving Repr, DecidableEq

/-- `fmt.Sscanf(name, "%d_", &version)`: succeeds exactly when the filename
starts with at least one decimal digit followed by `'_'`, yielding the
digits' value.  (A leading sign is not modelled; migration filenames are of
the shape `NNN_description.sql`.) -/
def parseVersion (s : String) : Option Nat :=
  let ds := s.toList.takeWhile (fun c => c.isDigit)
  if ds.isEmpty then none
  else if (s.toList.drop ds.length).head? = some '_' then
    some (ds.foldl (fun n c => 10 * n + (c.toNat - 48)) 0)
  else none

/-- `strings.HasSuffix(name, ".sql")`, on the reversed byte list. -/
def hasSqlSuffix (s : String) : Bool :=
  decide (s.toList.reverse.take 4 = ['l', 'q', 's', '.'])

/-- The file-scanning pass of `MigrationRunner.loadMigrations`: directories
and non-`.sql` entries are skipped; a `.sql` filename whose version does
not parse aborts construction with an error naming the file. -/
def loadMigrationsAux : List (String × String) → Except String (List Migration)
  | [] => .ok []
  | (name, content) :: rest =>
    if hasSqlSuffix name then
      match parseVersion name with
      | none => .error ("invalid migration filename " ++ name)
      | some v =>
        (loadMigrationsAux rest).map (fun ms => ⟨v, name, content⟩ :: ms)
    else loadMigrationsAux rest

/-- Version order used by the `sort.Slice` call of `loadMigrations`. -/
def migLe (a b : Migration) : Prop :=
  a.version ≤ b.version

instance : DecidableRel migLe :=
  fun a b => inferInstanceAs (Decidable (a.version ≤ b.version))

instance : IsTotal Migration migLe :=
  ⟨fun a b => Nat.le_total a.version b.version⟩

instance : IsTrans Migration migLe :=
  ⟨fun _ _ _ => Nat.le_trans⟩

/-- `MigrationRunner.loadMigrations`: scan the embedded directory entries,
then sort the migrations by ascending version.  No duplicate-version or
monotonicity check is performed. -/
def loadMigrations (entries : List (String × String)) :
    Except String (List Migration) :=
  (loadMigrationsAux entries).map (List.insertionSort migLe)

/-- `schema.NewMigrationRunner` for a supported database type: the runner
is just its loaded migration list (database handle and dialect do not enter
the model); loading failure is a construction-time error. -/
def newMigrationRunner (entries : List (String × String)) :
    Except String (List Migration) :=
  loadMigrations entries

/-- `MigrationRunner.createSchemaVersionTable`:
`CREATE TABLE IF NOT EXISTS schema_version` — materialise an empty ledger
when absent, leave an existing one untouched. -/
def createSchemaVersionTable (db : MigDB) : MigDB :=
  { db with ledger := some (db.ledger.getD []) }

/-- `MigrationRunner.getCurrentVersion`:
`SELECT COALESCE(MAX(version), 0) FROM schema_version`. -/
def getCurrentVersion (db : MigDB) : Nat :=
  ((db.ledger.getD []).map (fun r => r.1)).foldl max 0

/-- `MigrationRunner.runMigration`: one transaction executing the script
and appending the ledger record; they commit or roll back together.  The
script's effect on the store is abstracted by `exec` (`none` = SQL error);
the ledger `INSERT` fails on a duplicate version (`version INTEGER PRIMARY
KEY`).  On failure the state is returned unchanged (rollback) together with
the inner error. -/
def runMigration (exec : String → List String → Option (List String))
    (t : Nat) (db : MigDB) (m : Migration) : MigDB × Option String :=
  match exec m.sql db.applied with
  | none => (db, some "failed to execute migration SQL")
  | some applied' =>
    if (db.ledger.getD []).any (fun r => r.1 = m.version) then
      (db, some "failed to record migration")
    else
      ({ ledger := some ((db.ledger.getD []) ++ [(m.version, m.name, t)]),
         applied := applied' }, none)

/-- The pending-migration loop of `MigrationRunner.Run`: skip every
definition whose version is at most the current ledger maximum (computed
once, before the loop); run the rest in list order, stopping at the first
failure with an error naming the failing migration.  The third component
records the versions committed by this call, in order. -/
def runLoop (exec : String → List String → Option (List String))
    (t : Nat) (cur : Nat) :
    List Migration → MigDB → MigDB × Option String × List Nat
  | [], db => (db, none, [])
  | m :: rest, db =>
    if m.version ≤ cur then runLoop exec t cur rest db
    else
      match runMigration exec t db m with
      | (db1, none) =>
        match runLoop exec t cur rest db1 with
        | (db2, err, tr) => (db2, err, m.version :: tr)
      | (db1, some cause) =>
        (db1, some ("failed to run migration " ++ m.name ++ ": " ++ cause), [])

/-- `MigrationRunner.Run`: ensure the ledger table exists, read the current
version, and run all pending migrations. -/
def run (exec : String → List String → Option (List String))
    (t : Nat) (ms : List Migration) (db : MigDB) :
    MigDB × Option String × List Nat :=
  runLoop exec t (getCurrentVersion (createSchemaVersionTable db)) ms
    (createSchemaVersionTable db)

end Schema

/-! ## Concrete fixtures

A minimal store (one subreddit, one post) and comment builders used to
evaluate the operations on concrete inputs. -/

/-- A comment on post `t3_p1` with the given id, parent fullname and
creation second. -/
def mkComment (i par : String) (ts : Nat) : Comment :=
  { id := i, linkId := "t3_p1", parentId := par, author := "u", body := "b",
    score := 1, created := ts, isEdited := false, editedTs := 0 }

def fixSub : SubredditData :=
  { displayName := "golang", title := "", description := "", subscribers := 0 }

def fixPost : Post :=
  { id := "p1", subreddit := "golang", author := "a", title := "T",
    selftext := "", url := "", score := 0, numComments := 0, created := 0,
    isEdited := false, editedTs := 0, isSelf := true }

/-- A store holding subreddit `golang` and post `p1`, no comments. -/
def fixDb : DB :=
  { subs := [subRow 0 fixSub], posts := [postRow 0 fixPost], comments := [] }

/-- The depth invariant as the specification states it: depth zero exactly
for the rows whose stored parent reference is `NULL` (absent or equal to
the owning post), and otherwise the stored parent's depth plus one. -/
def depthInvariantClaim (db : DB) : Prop :=
  ∀ r ∈ db.comments,
    (r.depth = 0 ↔ r.parentId = none) ∧
    ∀ pid p, r.parentId = some pid → findComment db.comments pid = some p →
      r.depth = p.depth + 1

/-! ## C10: empty batch saves -/

/-- C10: `SavePosts` and `SaveComments` with an empty list return success
immediately and leave the store untouched (the guard precedes `BeginTx`,
so no transaction, row, timestamp or parent subreddit write happens). -/
theorem c10_empty_batch_noop (t : Nat) (db : DB) :
    savePosts t db [] = (db, none) ∧
    PG.saveComments t db [] = some (db, none) ∧
    SQLite.saveComments t db [] = (db, none) :=
  ⟨rfl, rfl, rfl⟩

/-- C10 witness: the guards at the concrete fixture store. -/
theorem c10_empty_batch_noop_witness :
    savePosts 3 fixDb [] = (fixDb, none) ∧
    PG.saveComments 3 fixDb [] = some (fixDb, none) ∧
    SQLite.saveComments 3 fixDb [] = (fixDb, none) :=
  c10_empty_batch_noop 3 fixDb

/-! ## C2: a Reply whose declared parent exists nowhere -/

/-- A comment whose declared parent fullname `t1_zz` matches nothing in the
store and nothing in its batch. -/
def orphanC : Comment := mkComment "c5" "t1_zz" 4

/-- C2 evaluation at the failing input: for a Reply with a dangling parent
reference, every save path computes fallback depth 1 (not the claimed 0),
and the insert is rejected by the `parent_id REFERENCES comments(id)`
constraint, so the save returns an error instead of succeeding. -/
theorem c2_orphan_fallback_eval :
    PG.singleDepth fixDb orphanC = 1 ∧
    SQLite.singleDepth orphanC = 1 ∧
    PG.saveComment 5 fixDb orphanC = (fixDb, some "save_comment") ∧
    SQLite.saveComment 5 fixDb orphanC = (fixDb, some "save_comment") ∧
    PG.saveComments 5 fixDb [orphanC] = some (fixDb, some "insert_comment") ∧
    SQLite.saveComments 5 fixDb [orphanC] = (fixDb, some "insert_comment") := by
  refine ⟨by decide, by decide, by decide, by decide, by decide, by decide⟩

/-! ## C3: cyclic in-batch parent graph -/

/-- Two comments declaring each other as parent. -/
def cycA : Comment := mkComment "a" "t1_b" 0

def cycB : Comment := mkComment "b" "t1_a" 1

/-- The in-batch parent map of the cyclic batch. -/
def cycMap : List (String × String) := PG.buildCommentMap [cycA, cycB]

/-- C3: on a batch whose in-batch parent map is cyclic, `calculateDepth`
recurses forever — it returns no result under any recursion bound, and no
`CycleDetected` (or any other) error is produced: `SaveComments` never
returns (modelled by `none`). -/
theorem c3_cycle_unbounded_recursion :
    (∀ fuel : Nat,
      PG.calculateDepth cycMap fixDb.comments fuel "a" [] = none ∧
      PG.calculateDepth cycMap fixDb.comments fuel "b" [] = none) ∧
    PG.saveComments 5 fixDb [cycA, cycB] = none := by
  have h : ∀ fuel : Nat,
      PG.calculateDepth cycMap fixDb.comments fuel "a" [] = none ∧
      PG.calculateDepth cycMap fixDb.comments fuel "b" [] = none := by
    intro fuel
    induction fuel with
    | zero => exact ⟨rfl, rfl⟩
    | succ n ih =>
      constructor
      · have e : PG.calculateDepth cycMap fixDb.comments (n + 1) "a" [] =
            match PG.calculateDepth cycMap fixDb.comments n "b" [] with
            | none => none
            | some (d, cache') => some (d + 1, ("a", d + 1) :: cache') := rfl
        rw [e, ih.2]
      · have e : PG.calculateDepth cycMap fixDb.comments (n + 1) "b" [] =
            match PG.calculateDepth cycMap fixDb.comments n "a" [] with
            | none => none
            | some (d, cache') => some (d + 1, ("b", d + 1) :: cache') := rfl
        rw [e, ih.1]
  refine ⟨h, ?_⟩
  have e : PG.saveComments 5 fixDb [cycA, cycB] =
      match PG.calculateDepth cycMap fixDb.comments 3 "a" [] with
      | none => none
      | some (depth, cache') =>
        match upsertComment fixDb.posts fixDb.comments
            (commentRow 5 depth cycA)
            (updateCommentWithDepth 5 (commentRow 5 depth cycA)) with
        | none => some (fixDb, some "insert_comment")
        | some txc' =>
          match PG.saveCommentsLoop 5 cycMap fixDb.posts [cycB] txc' cache' with
          | none => none
          | some (.error op) => some (fixDb, some op)
          | some (.ok txc) => some ({ fixDb with comments := txc }, none) := rfl
  rw [e, (h 3).1]

/-! ## C9: malformed migration identifiers at construction time -/

/-- Two migration files carrying the same version `1`. -/
def dupEntries : List (String × String) :=
  [("001_initial.sql", "CREATE TABLE a (x INTEGER)"),
   ("001_again.sql", "CREATE TABLE b (x INTEGER)")]

/-- C9 counterexample: constructing the runner over a set of definitions
with a duplicate version succeeds — no construction-time error is raised,
contradicting the claim. -/
theorem c9_counterexample :
    Schema.newMigrationRunner dupEntries =
      Except.ok
        [{ version := 1, name := "001_initial.sql", sql := "CREATE TABLE a (x INTEGER)" },
         { version := 1, name := "001_again.sql", sql := "CREATE TABLE b (x INTEGER)" }] :=
  rfl

/-- C9 amended: construction fails exactly when some `.sql` entry's
filename has no parseable leading version; duplicate or non-monotonic
versions are accepted at construction time (the list is merely sorted by
version). -/
theorem c9_amended (entries : List (String × String)) :
    (∃ ms, Schema.newMigrationRunner entries = Except.ok ms) ↔
      ∀ e ∈ entries, Schema.hasSqlSuffix e.1 → (Schema.parseVersion e.1).isSome := by
  have key : ∀ es : List (String × String),
      (∃ ms, Schema.loadMigrationsAux es = Except.ok ms) ↔
        ∀ e ∈ es, Schema.hasSqlSuffix e.1 → (Schema.parseVersion e.1).isSome := by
    intro es
    induction es with
    | nil =>
      constructor
      · intro _ e he _
        exact absurd he (List.not_mem_nil e)
      · intro _
        exact ⟨[], rfl⟩
    | cons e rest ih =>
      obtain ⟨name, content⟩ := e
      by_cases hs : Schema.hasSqlSuffix name = true
      · cases hp : Schema.parseVersion name with
        | none =>
          constructor
          · rintro ⟨ms, hms⟩
            simp [Schema.loadMigrationsAux, hs, hp] at hms
          · intro hall
            have hin := hall (name, content) (List.mem_cons_self _ _) hs
            rw [hp] at hin
            simp at hin
        | some v =>
          constructor
          · rintro ⟨ms, hms⟩
            intro e' he' hsq
            rcases List.mem_cons.mp he' with rfl | he''
            · simp [hp]
            · simp only [Schema.loadMigrationsAux, hs, if_true, hp] at hms
              cases ha : Schema.loadMigrationsAux rest with
              | error msg => rw [ha] at hms; simp [Except.map] at hms
              | ok ms' => exact ih.mp ⟨ms', ha⟩ e' he'' hsq
          · intro hall
            obtain ⟨ms', ha⟩ :=
              ih.mpr (fun e' he' => hall e' (List.mem_cons_of_mem _ he'))
            exact ⟨⟨v, name, content⟩ :: ms',
              by simp [Schema.loadMigrationsAux, hs, hp, ha, Except.map]⟩
      · constructor
        · rintro ⟨ms, hms⟩
          intro e' he' hsq
          rcases List.mem_cons.mp he' with rfl | he''
          · exact absurd hsq hs
          · simp only [Schema.loadMigrationsAux, hs, if_false] at hms
            exact ih.mp ⟨ms, hms⟩ e' he'' hsq
        · intro hall
          obtain ⟨ms', ha⟩ :=
            ih.mpr (fun e' he' => hall e' (List.mem_cons_of_mem _ he'))
          refine ⟨ms', ?_⟩
          simp only [Schema.loadMigrationsAux, hs, if_false]
          exact ha
  rw [← key entries]
  cases ha : Schema.loadMigrationsAux entries with
  | error msg =>
    simp [Schema.newMigrationRunner, Schema.loadMigrations, ha, Except.map]
  | ok ms =>
    simp [Schema.newMigrationRunner, Schema.loadMigrations, ha, Except.map]

/-- C9 amended witness: the duplicate-version entries satisfy the parse
condition, so construction succeeds on them. -/
theorem c9_amended_witness :
    ∃ ms, Schema.newMigrationRunner dupEntries = Except.ok ms :=
  (c9_amended dupEntries).mpr (by decide)

/-! ## Migration runner lemmas (used by C7 and C8) -/

namespace Schema

/-- The versions recorded in the ledger. -/
def ledVersions (db : MigDB) : List Nat :=
  (db.ledger.getD []).map (fun r => r.1)

lemma le_foldl_max (l : List Nat) (a : Nat) : a ≤ l.foldl max a := by
  induction l generalizing a with
  | nil => exact le_rfl
  | cons x xs ih => exact le_trans (le_max_left a x) (ih (max a x))

lemma foldl_max_append (l : List Nat) (a v : Nat) :
    (l ++ [v]).foldl max a = max (l.foldl max a) v := by
  simp [List.foldl_append]

/-- Characterisation of a committed `runMigration`. -/
lemma runMigration_ok (exec : String → List String → Option (List String))
    (t : Nat) (db db' : MigDB) (m : Migration)
    (h : runMigration exec t db m = (db', none)) :
    ∃ ap, exec m.sql db.applied = some ap ∧
      ¬ ((db.ledger.getD []).any (fun r => r.1 = m.version) = true) ∧
      db' = { ledger := some ((db.ledger.getD []) ++ [(m.version, m.name, t)]),
              applied := ap } := by
  unfold runMigration at h
  split at h
  · injection h with _ h2
    exact Option.noConfusion h2
  · rename_i ap he
    split at h
    · injection h with _ h2
      exact Option.noConfusion h2
    · rename_i hd
      injection h with h1 _
      exact ⟨ap, he, hd, h1.symm⟩

/-- A failed migration leaves the state unchanged (transaction rollback),
and the inner cause is one of the two fixed messages. -/
lemma runMigration_fail (exec : String → List String → Option (List String))
    (t : Nat) (db db' : MigDB) (m : Migration) (e : String)
    (h : runMigration exec t db m = (db', some e)) :
    db' = db ∧
      (e = "failed to execute migration SQL" ∨ e = "failed to record migration") := by
  unfold runMigration at h
  split at h
  · injection h with h1 h2
    injection h2 with h2
    exact ⟨h1.symm, Or.inl h2.symm⟩
  · split at h
    · injection h with h1 h2
      injection h2 with h2
      exact ⟨h1.symm, Or.inr h2.symm⟩
    · injection h with _ h2
      exact Option.noConfusion h2

/-- A committed migration only raises the current version, and covers its
own version. -/
lemma runMigration_version_le (exec : String → List String → Option (List String))
    (t : Nat) (db db' : MigDB) (m : Migration)
    (h : runMigration exec t db m = (db', none)) :
    getCurrentVersion db ≤ getCurrentVersion db' ∧
      m.version ≤ getCurrentVersion db' := by
  obtain ⟨ap, -, -, rfl⟩ := runMigration_ok exec t db db' m h
  constructor
  · simp only [getCurrentVersion, Option.getD_some, List.map_append, List.map_cons,
      List.map_nil, foldl_max_append]
    exact le_max_left _ _
  · simp only [getCurrentVersion, Option.getD_some, List.map_append, List.map_cons,
      List.map_nil, foldl_max_append]
    exact le_max_right _ _

/-- The current version never decreases across the pending loop. -/
lemma runLoop_version_mono (exec : String → List String → Option (List String))
    (t cur : Nat) :
    ∀ (ms : List Migration) (db : MigDB),
      getCurrentVersion db ≤ getCurrentVersion (runLoop exec t cur ms db).1 := by
  intro ms
  induction ms with
  | nil => intro db; exact le_rfl
  | cons m rest ih =>
    intro db
    by_cases hv : m.version ≤ cur
    · simpa [runLoop, hv] using ih db
    · simp only [runLoop, if_neg hv]
      cases hr : runMigration exec t db m with
      | mk db1 err =>
        cases err with
        | none =>
          exact le_trans (runMigration_version_le exec t db db1 m hr).1 (ih db1)
        | some cause =>
          have hfr := (runMigration_fail exec t db db1 m cause hr).1
          subst hfr
          exact le_rfl

/-- After a successful pending loop every listed version is at most the
final current version. -/
lemma runLoop_success_all_le (exec : String → List String → Option (List String))
    (t cur : Nat) :
    ∀ (ms : List Migration) (db db' : MigDB) (tr : List Nat),
      cur ≤ getCurrentVersion db →
      runLoop exec t cur ms db = (db', none, tr) →
      ∀ m ∈ ms, m.version ≤ getCurrentVersion db' := by
  intro ms
  induction ms with
  | nil =>
    intro db db' tr _ h m hm
    exact absurd hm (List.not_mem_nil m)
  | cons m0 rest ih =>
    intro db db' tr hcur h m hm
    by_cases hv : m0.version ≤ cur
    · rw [runLoop, if_pos hv] at h
      rcases List.mem_cons.mp hm with rfl | hm'
      · have hmono := runLoop_version_mono exec t cur rest db
        rw [h] at hmono
        exact le_trans hv (le_trans hcur hmono)
      · exact ih db db' tr hcur h m hm'
    · rw [runLoop, if_neg hv] at h
      cases hr : runMigration exec t db m0 with
      | mk db1 err =>
        rw [hr] at h
        cases err with
        | none =>
          have h' : ((runLoop exec t cur rest db1).1,
              (runLoop exec t cur rest db1).2.1,
              m0.version :: (runLoop exec t cur rest db1).2.2) = (db', none, tr) := h
          injection h' with h1 h23
          injection h23 with h2 h3
          have hmig := runMigration_version_le exec t db db1 m0 hr
          rcases List.mem_cons.mp hm with rfl | hm'
          · exact le_trans hmig.2 (h1 ▸ runLoop_version_mono exec t cur rest db1)
          · have hre : runLoop exec t cur rest db1 =
                (db', none, (runLoop exec t cur rest db1).2.2) := by
              rw [← h1, ← h2]
            exact ih db1 db' (runLoop exec t cur rest db1).2.2
              (le_trans hcur hmig.1) hre m hm'
        | some cause =>
          have h' : (db1,
              some ("failed to run migration " ++ m0.name ++ ": " ++ cause),
              ([] : List Nat)) = (db', none, tr) := h
          injection h' with _ h23
          injection h23 with h2 _
          exact Option.noConfusion h2


/-- When nothing is pending the loop does nothing. -/
lemma runLoop_noop (exec : String → List String → Option (List String))
    (t cur : Nat) :
    ∀ (ms : List Migration) (db : MigDB),
      (∀ m ∈ ms, m.version ≤ cur) →
      runLoop exec t cur ms db = (db, none, []) := by
  intro ms
  induction ms with
  | nil => intro db _; rfl
  | cons m rest ih =>
    intro db hall
    have hv : m.version ≤ cur := hall m (List.mem_cons_self m rest)
    simp only [runLoop, if_pos hv]
    exact ih db (fun m' hm' => hall m' (List.mem_cons_of_mem m hm'))

/-- The loop keeps the ledger materialised. -/
lemma runLoop_ledger_isSome (exec : String → List String → Option (List String))
    (t cur : Nat) :
    ∀ (ms : List Migration) (db : MigDB),
      db.ledger.isSome → (runLoop exec t cur ms db).1.ledger.isSome := by
  intro ms
  induction ms with
  | nil => intro db h; exact h
  | cons m rest ih =>
    intro db h
    by_cases hv : m.version ≤ cur
    · simpa [runLoop, hv] using ih db h
    · simp only [runLoop, if_neg hv]
      cases hr : runMigration exec t db m with
      | mk db1 err =>
        cases err with
        | none =>
          obtain ⟨ap, -, -, hdb1⟩ := runMigration_ok exec t db db1 m hr
          exact ih db1 (by rw [hdb1]; rfl)
        | some cause =>
          have hfr := (runMigration_fail exec t db db1 m cause hr).1
          subst hfr
          exact h

end Schema

/-- C7: once a run of the migration runner has succeeded, every further
run applies no migration (empty commit trace), re-executes nothing, and
leaves both the ledger and the schema state exactly as they were. -/
theorem c7_run_idempotent (exec : String → List String → Option (List String))
    (t t' : Nat) (ms : List Schema.Migration) (db db' : Schema.MigDB)
    (tr : List Nat)
    (h : Schema.run exec t ms db = (db', none, tr)) :
    Schema.run exec t' ms db' = (db', none, []) := by
  unfold Schema.run at h ⊢
  have hsome : db'.ledger.isSome := by
    have := Schema.runLoop_ledger_isSome exec t
      (Schema.getCurrentVersion (Schema.createSchemaVersionTable db)) ms
      (Schema.createSchemaVersionTable db) (by simp [Schema.createSchemaVersionTable])
    rw [h] at this
    exact this
  have hfix : Schema.createSchemaVersionTable db' = db' := by
    obtain ⟨led, hl⟩ := Option.isSome_iff_exists.mp hsome
    simp only [Schema.createSchemaVersionTable, hl, Option.getD_some]
    rw [← hl]
  have hall : ∀ m ∈ ms, m.version ≤ Schema.getCurrentVersion db' :=
    Schema.runLoop_success_all_le exec t
      (Schema.getCurrentVersion (Schema.createSchemaVersionTable db)) ms
      (Schema.createSchemaVersionTable db) db' tr le_rfl h
  rw [hfix]
  exact Schema.runLoop_noop exec t' (Schema.getCurrentVersion db') ms db' hall

/-- An `exec` model where every script succeeds and is appended to the
schema state. -/
def execOk : String → List String → Option (List String) :=
  fun s l => some (l ++ [s])

def fixMigs : List Schema.Migration :=
  [⟨1, "001_initial.sql", "A"⟩, ⟨2, "002_indexes.sql", "B"⟩]

def fixMigDb : Schema.MigDB :=
  { ledger := some [(1, "001_initial.sql", 7), (2, "002_indexes.sql", 7)],
    applied := ["A", "B"] }

/-- C7 witness: after the fixture migrations have been applied at time 7,
a second run at time 8 is a no-op. -/
theorem c7_run_idempotent_witness :
    Schema.run execOk 8 fixMigs fixMigDb = (fixMigDb, none, []) :=
  c7_run_idempotent execOk 7 8 fixMigs ⟨none, []⟩ fixMigDb [1, 2] (by decide)

/-! ## C8: ascending order, per-migration atomicity, fail-fast -/

namespace Schema

/-- The committed trace is a sublist of the listed versions, in order. -/
lemma runLoop_trace_sublist (exec : String → List String → Option (List String))
    (t cur : Nat) :
    ∀ (ms : List Migration) (db : MigDB),
      List.Sublist (runLoop exec t cur ms db).2.2 (ms.map (fun m => m.version)) := by
  intro ms
  induction ms with
  | nil => intro db; exact List.Sublist.refl []
  | cons m rest ih =>
    intro db
    by_cases hv : m.version ≤ cur
    · simp only [runLoop, if_pos hv, List.map_cons]
      exact (ih db).cons m.version
    · simp only [runLoop, if_neg hv, List.map_cons]
      cases hr : runMigration exec t db m with
      | mk db1 err =>
        cases err with
        | none => exact (ih db1).cons₂ m.version
        | some cause => exact List.nil_sublist _

/-- On a failing loop, the error names the first failing pending migration
and everything committed before it has a strictly smaller version. -/
lemma runLoop_fail_names (exec : String → List String → Option (List String))
    (t cur : Nat) :
    ∀ (ms : List Migration) (db db' : MigDB) (e : String) (tr : List Nat),
      List.Pairwise (fun a b => a.version < b.version) ms →
      runLoop exec t cur ms db = (db', some e, tr) →
      ∃ m ∈ ms,
        (∃ cause, e = "failed to run migration " ++ m.name ++ ": " ++ cause) ∧
        ∀ v ∈ tr, v < m.version := by
  intro ms
  induction ms with
  | nil =>
    intro db db' e tr _ h
    injection h with _ h23
    injection h23 with h2 _
    exact Option.noConfusion h2
  | cons m0 rest ih =>
    intro db db' e tr hpw h
    by_cases hv : m0.version ≤ cur
    · rw [runLoop, if_pos hv] at h
      obtain ⟨m', hm', hname, htr⟩ := ih db db' e tr hpw.of_cons h
      exact ⟨m', List.mem_cons_of_mem m0 hm', hname, htr⟩
    · rw [runLoop, if_neg hv] at h
      cases hr : runMigration exec t db m0 with
      | mk db1 err =>
        rw [hr] at h
        cases err with
        | none =>
          have h' : ((runLoop exec t cur rest db1).1,
              (runLoop exec t cur rest db1).2.1,
              m0.version :: (runLoop exec t cur rest db1).2.2) = (db', some e, tr) := h
          injection h' with h1 h23
          injection h23 with h2 h3
          have hre : runLoop exec t cur rest db1 =
              (db', some e, (runLoop exec t cur rest db1).2.2) := by
            rw [← h1, ← h2]
          obtain ⟨m', hm', hname, htr⟩ :=
            ih db1 db' e (runLoop exec t cur rest db1).2.2 hpw.of_cons hre
          refine ⟨m', List.mem_cons_of_mem m0 hm', hname, ?_⟩
          intro v hv'
          rw [← h3] at hv'
          rcases List.mem_cons.mp hv' with rfl | hv''
          · exact (List.pairwise_cons.mp hpw).1 m' hm'
          · exact htr v hv''
        | some cause =>
          have h' : (db1,
              some ("failed to run migration " ++ m0.name ++ ": " ++ cause),
              ([] : List Nat)) = (db', some e, tr) := h
          injection h' with h1 h23
          injection h23 with h2 h3
          injection h2 with h2
          refine ⟨m0, List.mem_cons_self m0 rest, ⟨cause, h2.symm⟩, ?_⟩
          intro v hv'
          rw [← h3] at hv'
          exact absurd hv' (List.not_mem_nil v)

/-- Across any loop outcome the ledger's version column grows by exactly
the committed trace. -/
lemma runLoop_ledger_trace (exec : String → List String → Option (List String))
    (t cur : Nat) :
    ∀ (ms : List Migration) (db : MigDB),
      ledVersions (runLoop exec t cur ms db).1 =
        ledVersions db ++ (runLoop exec t cur ms db).2.2 := by
  intro ms
  induction ms with
  | nil => intro db; exact (List.append_nil _).symm
  | cons m rest ih =>
    intro db
    by_cases hv : m.version ≤ cur
    · simpa [runLoop, hv] using ih db
    · simp only [runLoop, if_neg hv]
      cases hr : runMigration exec t db m with
      | mk db1 err =>
        cases err with
        | none =>
          obtain ⟨ap, -, -, hdb1⟩ := runMigration_ok exec t db db1 m hr
          have hstep : ledVersions db1 = ledVersions db ++ [m.version] := by
            rw [hdb1]
            simp [ledVersions]
          calc ledVersions (runLoop exec t cur rest db1).1
              = ledVersions db1 ++ (runLoop exec t cur rest db1).2.2 := ih db1
            _ = ledVersions db ++ m.version :: (runLoop exec t cur rest db1).2.2 := by
                rw [hstep, List.append_assoc]
                rfl
        | some cause =>
          have hfr := (runMigration_fail exec t db db1 m cause hr).1
          subst hfr
          simp

/-- `createSchemaVersionTable` does not change the recorded versions. -/
lemma ledVersions_create (db : MigDB) :
    ledVersions (createSchemaVersionTable db) = ledVersions db := by
  cases h : db.ledger <;> simp [ledVersions, createSchemaVersionTable, h]

end Schema

/-- C8: the runner applies pending migrations in ascending version order
(the committed trace of a run over a version-sorted definition list is
ascending); each migration's script and ledger record execute in one
atomic transaction (a failing migration leaves the state untouched, a
committed one appends exactly its ledger record and its script effect); on
failure the returned error names the first failing migration, everything
committed in that call has a strictly smaller version (later migrations
were not attempted), and across any outcome the ledger gains exactly the
committed trace, leaving the schema at the last successfully applied
version. -/
theorem c8_run_order_atomic_failfast
    (exec : String → List String → Option (List String)) (t : Nat)
    (ms : List Schema.Migration) (db : Schema.MigDB) :
    (List.Sorted Schema.migLe ms →
      List.Sorted (fun a b => a ≤ b) (Schema.run exec t ms db).2.2) ∧
    (∀ (db1 db2 : Schema.MigDB) (m : Schema.Migration) (e : String),
      Schema.runMigration exec t db1 m = (db2, some e) → db2 = db1) ∧
    (∀ (db1 db2 : Schema.MigDB) (m : Schema.Migration),
      Schema.runMigration exec t db1 m = (db2, none) →
      db2.ledger = some ((db1.ledger.getD []) ++ [(m.version, m.name, t)]) ∧
      exec m.sql db1.applied = some db2.applied) ∧
    (List.Pairwise (fun a b => a.version < b.version) ms →
      ∀ (db' : Schema.MigDB) (e : String) (tr : List Nat),
        Schema.run exec t ms db = (db', some e, tr) →
        ∃ m ∈ ms,
          (∃ cause, e = "failed to run migration " ++ m.name ++ ": " ++ cause) ∧
          ∀ v ∈ tr, v < m.version) ∧
    Schema.ledVersions (Schema.run exec t ms db).1 =
      Schema.ledVersions db ++ (Schema.run exec t ms db).2.2 := by
  refine ⟨?_, ?_, ?_, ?_, ?_⟩
  · intro hsorted
    have hsub := Schema.runLoop_trace_sublist exec t
      (Schema.getCurrentVersion (Schema.createSchemaVersionTable db)) ms
      (Schema.createSchemaVersionTable db)
    have hmap : List.Pairwise (fun a b : Nat => a ≤ b)
        (ms.map (fun m => m.version)) :=
      List.pairwise_map.mpr hsorted
    exact hmap.sublist hsub
  · intro db1 db2 m e h
    exact (Schema.runMigration_fail exec t db1 db2 m e h).1
  · intro db1 db2 m h
    obtain ⟨ap, hap, -, rfl⟩ := Schema.runMigration_ok exec t db1 db2 m h
    exact ⟨rfl, hap⟩
  · intro hpw db' e tr h
    exact Schema.runLoop_fail_names exec t
      (Schema.getCurrentVersion (Schema.createSchemaVersionTable db)) ms
      (Schema.createSchemaVersionTable db) db' e tr hpw h
  · rw [Schema.run, Schema.runLoop_ledger_trace, Schema.ledVersions_create]

/-- An `exec` model where the script `"B"` fails and every other script
succeeds. -/
def execFailB : String → List String → Option (List String) :=
  fun s l => if s = "B" then none else some (l ++ [s])

/-- C8 witness: on the fixture definitions with a failing second script,
the run commits version 1, then stops with an error naming
`002_indexes.sql`. -/
theorem c8_run_order_atomic_failfast_witness :
    ∃ m ∈ fixMigs,
      (∃ cause,
        "failed to run migration 002_indexes.sql: failed to execute migration SQL" =
          "failed to run migration " ++ m.name ++ ": " ++ cause) ∧
      ∀ v ∈ [1], v < m.version :=
  (c8_run_order_atomic_failfast execFailB 7 fixMigs ⟨none, []⟩).2.2.2.1
    (by decide)
    ⟨some [(1, "001_initial.sql", 7)], ["A"]⟩
    "failed to run migration 002_indexes.sql: failed to execute migration SQL"
    [1] (by decide)

/-! ## C5: all-or-nothing batch saves -/

lemma saveSubreddit_frame (t : Nat) (db : DB) (s : SubredditData) :
    ((saveSubreddit t db s).1).posts = db.posts ∧
    ((saveSubreddit t db s).1).comments = db.comments := by
  unfold saveSubreddit
  split <;> exact ⟨rfl, rfl⟩

/-- The subreddit pre-pass touches only the `subreddits` table. -/
lemma ensureSubs_frame (t : Nat) (ps : List Post) (db : DB) :
    (ensureSubs t db ps).posts = db.posts ∧
    (ensureSubs t db ps).comments = db.comments := by
  suffices h : ∀ (ps : List Post) (acc : DB × List String),
      ((ps.foldl (fun (acc : DB × List String) p =>
        if p.subreddit ≠ "" ∧ ¬ acc.2.contains p.subreddit then
          ((saveSubreddit t acc.1 (subOnly p.subreddit)).1, p.subreddit :: acc.2)
        else acc) acc).1).posts = acc.1.posts ∧
      ((ps.foldl (fun (acc : DB × List String) p =>
        if p.subreddit ≠ "" ∧ ¬ acc.2.contains p.subreddit then
          ((saveSubreddit t acc.1 (subOnly p.subreddit)).1, p.subreddit :: acc.2)
        else acc) acc).1).comments = acc.1.comments by
    exact h ps (db, [])
  intro ps
  induction ps with
  | nil => intro acc; exact ⟨rfl, rfl⟩
  | cons p rest ih =>
    intro acc
    simp only [List.foldl_cons]
    by_cases hc : p.subreddit ≠ "" ∧ ¬ acc.2.contains p.subreddit
    · rw [if_pos hc]
      obtain ⟨h1, h2⟩ :=
        ih ((saveSubreddit t acc.1 (subOnly p.subreddit)).1, p.subreddit :: acc.2)
      obtain ⟨g1, g2⟩ := saveSubreddit_frame t acc.1 (subOnly p.subreddit)
      exact ⟨h1.trans g1, h2.trans g2⟩
    · rw [if_neg hc]
      exact ih acc

/-- C5 amended: a failing batch save still reports one error and rolls the
batch's own entities back — a failing `SavePosts` leaves the `posts` and
`comments` tables exactly as before the call, and a failing `SaveComments`
leaves the whole store unchanged — but `SavePosts` creates the batch's
required parent subreddits through `SaveSubreddit` on the live connection,
outside the transaction, so those Container writes survive the rollback
(the store's subreddit state after the error is exactly the pre-pass
result). -/
theorem c5_amended :
    (∀ (t : Nat) (db : DB) (ps : List Post) (db' : DB) (e : String),
      savePosts t db ps = (db', some e) →
      db'.posts = db.posts ∧ db'.comments = db.comments ∧
      db'.subs = (ensureSubs t db ps).subs) ∧
    (∀ (t : Nat) (db : DB) (cs : List Comment) (db' : DB) (e : String),
      PG.saveComments t db cs = some (db', some e) → db' = db) ∧
    (∀ (t : Nat) (db : DB) (cs : List Comment) (db' : DB) (e : String),
      SQLite.saveComments t db cs = (db', some e) → db' = db) := by
  refine ⟨?_, ?_, ?_⟩
  · intro t db ps db' e h
    cases ps with
    | nil =>
      injection h with _ h2
      exact Option.noConfusion h2
    | cons p rest =>
      rw [savePosts] at h
      cases hl : savePostsLoop t (ensureSubs t db (p :: rest)).subs (p :: rest)
          (ensureSubs t db (p :: rest)).posts with
      | error op =>
        rw [hl] at h
        injection h with h1 _
        rw [← h1]
        obtain ⟨f1, f2⟩ := ensureSubs_frame t (p :: rest) db
        exact ⟨f1, f2, rfl⟩
      | ok rows =>
        rw [hl] at h
        injection h with _ h2
        exact Option.noConfusion h2
  · intro t db cs db' e h
    cases cs with
    | nil =>
      injection h with h
      injection h with _ h2
      exact Option.noConfusion h2
    | cons c rest =>
      rw [PG.saveComments] at h
      cases hl : PG.saveCommentsLoop t (PG.buildCommentMap (c :: rest)) db.posts
          (c :: rest) db.comments [] with
      | none => rw [hl] at h; exact Option.noConfusion h
      | some r =>
        rw [hl] at h
        cases r with
        | error op =>
          injection h with h
          injection h with h1 _
          exact h1.symm
        | ok txc =>
          injection h with h
          injection h with _ h2
          exact Option.noConfusion h2
  · intro t db cs db' e h
    cases cs with
    | nil =>
      injection h with _ h2
      exact Option.noConfusion h2
    | cons c rest =>
      rw [SQLite.saveComments] at h
      cases hl : SQLite.saveCommentsLoop t db.posts (c :: rest) db.comments with
      | error op =>
        rw [hl] at h
        injection h with h1 _
        exact h1.symm
      | ok txc =>
        rw [hl] at h
        injection h with _ h2
        exact Option.noConfusion h2

/-- An empty store. -/
def c5db0 : DB := { subs := [], posts := [], comments := [] }

def goodPost : Post :=
  { id := "p2", subreddit := "golang", author := "a", title := "T2",
    selftext := "", url := "", score := 1, numComments := 0, created := 1,
    isEdited := false, editedTs := 0, isSelf := false }

/-- A post with an empty subreddit name: the pre-pass skips it and the
insert then violates the `posts.subreddit` foreign key, failing the batch. -/
def noSubPost : Post :=
  { id := "p3", subreddit := "", author := "a", title := "T3",
    selftext := "", url := "", score := 1, numComments := 0, created := 2,
    isEdited := false, editedTs := 0, isSelf := false }

def c5sub : SubredditData :=
  { displayName := "golang", title := "", description := "", subscribers := 0 }

/-- The store after the failed batch: no posts, but subreddit `golang`
remains. -/
def c5dbAfter : DB :=
  { subs := [subRow 5 c5sub], posts := [], comments := [] }

/-- C5 counterexample: a batch whose second post fails returns an error
and writes no post row — but the implicitly created parent subreddit
`golang` of the same batch remains in the store, so the claimed
"no write performed for any entity of that batch (including implicitly
created parent Containers) remains" is false. -/
theorem c5_counterexample :
    savePosts 5 c5db0 [goodPost, noSubPost] = (c5dbAfter, some "insert_post") ∧
    c5dbAfter.posts = c5db0.posts ∧
    c5dbAfter.subs ≠ c5db0.subs := by
  refine ⟨by decide, rfl, by decide⟩

/-- C5 amended witness: the rollback/persistence split at the concrete
failing batch. -/
theorem c5_amended_witness :
    c5dbAfter.posts = c5db0.posts ∧ c5dbAfter.comments = c5db0.comments ∧
    c5dbAfter.subs = (ensureSubs 5 c5db0 [goodPost, noSubPost]).subs :=
  c5_amended.1 5 c5db0 [goodPost, noSubPost] c5dbAfter "insert_post" (by decide)

/-! ## C6: upsert idempotence (generic update-path lemmas) -/

section UpdIf

variable {A : Type} (key : A → String)

lemma find?_updIf (k i : String) (f : A → A) (hf : ∀ r, key (f r) = key r) :
    ∀ l : List A,
      (l.map (fun r => if key r = k then f r else r)).find? (fun r => key r = i) =
        (l.find? (fun r => key r = i)).map (fun r => if key r = k then f r else r) := by
  intro l
  induction l with
  | nil => rfl
  | cons x xs ih =>
    by_cases hx : key x = i
    · have hx' : key (if key x = k then f x else x) = i := by
        split
        · rwa [hf]
        · exact hx
      rw [List.map_cons, List.find?_cons_of_pos _ (by simpa using hx'),
        List.find?_cons_of_pos _ (by simpa using hx)]
      rfl
    · have hx' : ¬ key (if key x = k then f x else x) = i := by
        split
        · rwa [hf]
        · exact hx
      rw [List.map_cons, List.find?_cons_of_neg _ (by simpa using hx'),
        List.find?_cons_of_neg _ (by simpa using hx), ih]

lemma mem_updIf_of_ne (k : String) (f : A → A) {r : A} {l : List A}
    (hr : r ∈ l) (hne : key r ≠ k) :
    r ∈ l.map (fun r => if key r = k then f r else r) :=
  List.mem_map.mpr ⟨r, hr, by rw [if_neg hne]⟩

lemma any_updIf (k i : String) (f : A → A) (hf : ∀ r, key (f r) = key r)
    (l : List A) (h : l.any (fun r => key r = i)) :
    (l.map (fun r => if key r = k then f r else r)).any (fun r => key r = i) := by
  obtain ⟨x, hx, hpx⟩ := List.any_eq_true.mp h
  refine List.any_eq_true.mpr ⟨(if key x = k then f x else x),
    List.mem_map.mpr ⟨x, hx, rfl⟩, ?_⟩
  split
  · simpa [hf] using hpx
  · exact hpx

lemma updIf_find_upd (k i : String) (f : A → A) (hf : ∀ r, key (f r) = key r)
    (l : List A) :
    ∀ r1, l.find? (fun r => key r = i) = some r1 → key r1 = k →
      (l.map (fun r => if key r = k then f r else r)).find? (fun r => key r = i) =
        some (f r1) := by
  intro r1 hfind hk
  rw [find?_updIf key k i f hf l, hfind]
  simp only [Option.map]
  rw [if_pos hk]

end UpdIf

/-- `SELECT ... FROM posts WHERE id = ?` (`GetPost`). -/
def findPost (l : List PostRow) (i : String) : Option PostRow :=
  l.find? (fun r => r.id = i)

/-- `SELECT ... FROM subreddits WHERE name = ?` (`GetSubreddit`). -/
def findSub (l : List SubRow) (i : String) : Option SubRow :=
  l.find? (fun r => r.name = i)

/-- A successful post save leaves a row under the post's id. -/
lemma savePost_has_id (t : Nat) (db : DB) (p : Post) (db1 : DB)
    (h : savePost t db p = (db1, none)) :
    db1.posts.any (fun r => r.id = p.id) := by
  unfold savePost at h
  cases hu : upsertPost (savePostPre t db p).subs (savePostPre t db p).posts
      (postRow t p) (updatePostRow t (postRow t p)) with
  | none =>
    rw [hu] at h
    injection h with _ h2
    exact Option.noConfusion h2
  | some ps =>
    rw [hu] at h
    injection h with h1 _
    rw [← h1]
    unfold upsertPost at hu
    split at hu
    · rename_i hany
      injection hu with hu
      rw [← hu]
      have hf : ∀ r : PostRow, (updatePostRow t (postRow t p) r).id = r.id :=
        fun _ => rfl
      exact any_updIf (fun r => r.id) (postRow t p).id p.id
        (updatePostRow t (postRow t p)) hf (savePostPre t db p).posts hany
    · split at hu
      · injection hu with hu
        rw [← hu]
        refine List.any_eq_true.mpr ⟨postRow t p, ?_, by simp [postRow]⟩
        exact List.mem_append.mpr (Or.inr (List.mem_singleton.mpr rfl))
      · exact Option.noConfusion hu

/-- A successful comment save (either backend's single path, sharing
`upsertComment`) leaves a row under the comment's id. -/
lemma upsertComment_has_id (posts : List PostRow) (l : List CommentRow)
    (row : CommentRow) (upd : CommentRow → CommentRow) (hid : ∀ r, (upd r).id = r.id)
    (cs : List CommentRow) (h : upsertComment posts l row upd = some cs) :
    cs.any (fun r => r.id = row.id) := by
  unfold upsertComment at h
  split at h
  · rename_i hany
    injection h with h
    rw [← h]
    exact any_updIf (fun r => r.id) row.id row.id upd hid l hany
  · split at h
    · injection h with h
      rw [← h]
      refine List.any_eq_true.mpr ⟨row, ?_, by simp⟩
      exact List.mem_append.mpr (Or.inr (List.mem_singleton.mpr rfl))
    · exact Option.noConfusion h

/-- `SaveSubreddit` always leaves a row under the subreddit's name. -/
lemma saveSubreddit_has_name (t : Nat) (db : DB) (s : SubredditData) :
    ((saveSubreddit t db s).1).subs.any (fun r => r.name = s.displayName) := by
  unfold saveSubreddit
  split
  · rename_i hany
    have hf : ∀ r : SubRow,
        ({ r with
            displayName := s.displayName
            title := s.title
            description := s.description
            subscribers := s.subscribers
            raw := s
            lastSynced := t } : SubRow).name = r.name :=
      fun _ => rfl
    exact any_updIf (fun r => r.name) s.displayName s.displayName _ hf db.subs hany
  · refine List.any_eq_true.mpr ⟨subRow t s, ?_, by simp [subRow]⟩
    exact List.mem_append.mpr (Or.inr (List.mem_singleton.mpr rfl))

/-- C6: re-saving an entity under an already-stored natural key takes the
conflict-update path on every backend: no second row appears (the table
keeps its length and every other row), and the row under that key keeps
its natural key, creation timestamp and the other insert-only columns
while only the per-entity mutable set (score/body/counts, edited, raw
payload, sync/update timestamp) is refreshed.  Stated for posts (the
`SavePost` upsert shared by both backends), for both backends' single
comment saves, and for subreddits. -/
theorem c6_upsert_idempotent :
    (∀ (t1 t2 : Nat) (db : DB) (p1 p2 : Post) (db1 : DB),
      p2.id = p1.id →
      savePost t1 db p1 = (db1, none) →
      ∃ db2, savePost t2 db1 p2 = (db2, none) ∧
        db2.posts.length = db1.posts.length ∧
        (∀ r ∈ db1.posts, r.id ≠ p1.id → r ∈ db2.posts) ∧
        (∀ r1, findPost db1.posts p1.id = some r1 →
          ∃ r2, findPost db2.posts p1.id = some r2 ∧ r2.id = r1.id ∧
            r2.created = r1.created ∧ r2.archivedAt = r1.archivedAt ∧
            r2.subreddit = r1.subreddit ∧ r2.author = r1.author ∧
            r2.title = r1.title ∧ r2.selftext = r1.selftext ∧
            r2.url = r1.url ∧ r2.isSelf = r1.isSelf ∧
            r2.score = p2.score ∧ r2.numComments = p2.numComments ∧
            r2.edited = editedCol p2.isEdited p2.editedTs ∧
            r2.raw = p2 ∧ r2.lastUpdated = t2)) ∧
    (∀ (t1 t2 : Nat) (db : DB) (c1 c2 : Comment) (db1 : DB),
      c2.id = c1.id →
      PG.saveComment t1 db c1 = (db1, none) →
      ∃ db2, PG.saveComment t2 db1 c2 = (db2, none) ∧
        db2.comments.length = db1.comments.length ∧
        (∀ r ∈ db1.comments, r.id ≠ c1.id → r ∈ db2.comments) ∧
        (∀ r1, findComment db1.comments c1.id = some r1 →
          ∃ r2, findComment db2.comments c1.id = some r2 ∧ r2.id = r1.id ∧
            r2.created = r1.created ∧ r2.archivedAt = r1.archivedAt ∧
            r2.postId = r1.postId ∧ r2.parentId = r1.parentId ∧
            r2.depth = r1.depth ∧ r2.author = r1.author ∧
            r2.score = c2.score ∧ r2.body = c2.body ∧
            r2.edited = editedCol c2.isEdited c2.editedTs ∧
            r2.raw = c2 ∧ r2.lastUpdated = t2)) ∧
    (∀ (t1 t2 : Nat) (db : DB) (c1 c2 : Comment) (db1 : DB),
      c2.id = c1.id →
      SQLite.saveComment t1 db c1 = (db1, none) →
      ∃ db2, SQLite.saveComment t2 db1 c2 = (db2, none) ∧
        db2.comments.length = db1.comments.length ∧
        (∀ r ∈ db1.comments, r.id ≠ c1.id → r ∈ db2.comments) ∧
        (∀ r1, findComment db1.comments c1.id = some r1 →
          ∃ r2, findComment db2.comments c1.id = some r2 ∧ r2.id = r1.id ∧
            r2.created = r1.created ∧ r2.archivedAt = r1.archivedAt ∧
            r2.postId = r1.postId ∧ r2.parentId = r1.parentId ∧
            r2.depth = r1.depth ∧ r2.author = r1.author ∧
            r2.score = c2.score ∧ r2.body = c2.body ∧
            r2.edited = editedCol c2.isEdited c2.editedTs ∧
            r2.raw = c2 ∧ r2.lastUpdated = t2)) ∧
    (∀ (t1 t2 : Nat) (db : DB) (s1 s2 : SubredditData) (db1 : DB) (e1 : Option String),
      s2.displayName = s1.displayName →
      saveSubreddit t1 db s1 = (db1, e1) →
      ∃ db2, saveSubreddit t2 db1 s2 = (db2, none) ∧
        db2.subs.length = db1.subs.length ∧
        (∀ r ∈ db1.subs, r.name ≠ s1.displayName → r ∈ db2.subs) ∧
        (∀ r1, findSub db1.subs s1.displayName = some r1 →
          ∃ r2, findSub db2.subs s1.displayName = some r2 ∧ r2.name = r1.name ∧
            r2.createdUtc = r1.createdUtc ∧
            r2.displayName = s2.displayName ∧ r2.title = s2.title ∧
            r2.description = s2.description ∧ r2.subscribers = s2.subscribers ∧
            r2.raw = s2 ∧ r2.lastSynced = t2)) := by
  refine ⟨?_, ?_, ?_, ?_⟩
  · intro t1 t2 db p1 p2 db1 hid h1
    have hany : db1.posts.any (fun r => r.id = p1.id) :=
      savePost_has_id t1 db p1 db1 h1
    have hpp : (savePostPre t2 db1 p2).posts = db1.posts := by
      unfold savePostPre
      split
      · exact (saveSubreddit_frame t2 db1 (subOnly p2.subreddit)).1
      · rfl
    have hpid : (postRow t2 p2).id = p1.id := hid
    have hany2 : (savePostPre t2 db1 p2).posts.any
        (fun r => r.id = (postRow t2 p2).id) := by
      rw [hpp]
      simpa [hpid] using hany
    have hu2 : upsertPost (savePostPre t2 db1 p2).subs (savePostPre t2 db1 p2).posts
        (postRow t2 p2) (updatePostRow t2 (postRow t2 p2)) =
        some ((savePostPre t2 db1 p2).posts.map
          (fun r => if r.id = (postRow t2 p2).id then
            updatePostRow t2 (postRow t2 p2) r else r)) := by
      unfold upsertPost
      rw [if_pos hany2]
    have hsp : savePost t2 db1 p2 =
        ({ savePostPre t2 db1 p2 with
            posts := (savePostPre t2 db1 p2).posts.map
              (fun r => if r.id = (postRow t2 p2).id then
                updatePostRow t2 (postRow t2 p2) r else r) }, none) := by
      unfold savePost
      rw [hu2]
    have hf : ∀ r : PostRow, (updatePostRow t2 (postRow t2 p2) r).id = r.id :=
      fun _ => rfl
    refine ⟨_, hsp, ?_, ?_, ?_⟩
    · show ((savePostPre t2 db1 p2).posts.map
          (fun r => if r.id = (postRow t2 p2).id then
            updatePostRow t2 (postRow t2 p2) r else r)).length = db1.posts.length
      rw [List.length_map, hpp]
    · intro r hr hne
      show r ∈ (savePostPre t2 db1 p2).posts.map
          (fun r => if r.id = (postRow t2 p2).id then
            updatePostRow t2 (postRow t2 p2) r else r)
      rw [hpp]
      exact mem_updIf_of_ne (fun r => r.id) (postRow t2 p2).id
        (updatePostRow t2 (postRow t2 p2)) hr
        (fun hcon => hne (hcon.trans hpid))
    · intro r1 hfind
      have hfind' : db1.posts.find? (fun r => r.id = p1.id) = some r1 := hfind
      have hk : r1.id = (postRow t2 p2).id := by
        have h1' : r1.id = p1.id := by simpa using List.find?_some hfind'
        rw [h1']
        exact hpid.symm
      refine ⟨updatePostRow t2 (postRow t2 p2) r1, ?_, rfl, rfl, rfl, rfl, rfl,
        rfl, rfl, rfl, rfl, rfl, rfl, rfl, rfl, rfl⟩
      show ((savePostPre t2 db1 p2).posts.map
          (fun r => if r.id = (postRow t2 p2).id then
            updatePostRow t2 (postRow t2 p2) r else r)).find?
          (fun r => r.id = p1.id) = some (updatePostRow t2 (postRow t2 p2) r1)
      rw [hpp]
      exact updIf_find_upd (fun r => r.id) (postRow t2 p2).id p1.id
        (updatePostRow t2 (postRow t2 p2)) hf db1.posts r1 hfind' hk
  · intro t1 t2 db c1 c2 db1 hid h1
    have hany : db1.comments.any (fun r => r.id = c1.id) := by
      unfold PG.saveComment at h1
      cases hu : upsertComment db.posts db.comments
          (commentRow t1 (PG.singleDepth db c1) c1)
          (updateCommentCommon t1 (commentRow t1 (PG.singleDepth db c1) c1)) with
      | none =>
        rw [hu] at h1
        injection h1 with _ h2
        exact Option.noConfusion h2
      | some cs =>
        rw [hu] at h1
        injection h1 with hdb _
        rw [← hdb]
        exact upsertComment_has_id db.posts db.comments
          (commentRow t1 (PG.singleDepth db c1) c1)
          (updateCommentCommon t1 (commentRow t1 (PG.singleDepth db c1) c1))
          (fun _ => rfl) cs hu
    have hpid : (commentRow t2 (PG.singleDepth db1 c2) c2).id = c1.id := hid
    have hany2 : db1.comments.any
        (fun r => r.id = (commentRow t2 (PG.singleDepth db1 c2) c2).id) := by
      simpa [hpid] using hany
    have hu2 : upsertComment db1.posts db1.comments
        (commentRow t2 (PG.singleDepth db1 c2) c2)
        (updateCommentCommon t2 (commentRow t2 (PG.singleDepth db1 c2) c2)) =
        some (db1.comments.map
          (fun r => if r.id = (commentRow t2 (PG.singleDepth db1 c2) c2).id then
            updateCommentCommon t2 (commentRow t2 (PG.singleDepth db1 c2) c2) r
          else r)) := by
      unfold upsertComment
      rw [if_pos hany2]
    have hsp : PG.saveComment t2 db1 c2 =
        ({ db1 with
            comments := db1.comments.map
              (fun r => if r.id = (commentRow t2 (PG.singleDepth db1 c2) c2).id then
                updateCommentCommon t2 (commentRow t2 (PG.singleDepth db1 c2) c2) r
              else r) }, none) := by
      unfold PG.saveComment
      rw [hu2]
    have hf : ∀ r : CommentRow,
        (updateCommentCommon t2 (commentRow t2 (PG.singleDepth db1 c2) c2) r).id = r.id :=
      fun _ => rfl
    refine ⟨_, hsp, ?_, ?_, ?_⟩
    · show (db1.comments.map
          (fun r => if r.id = (commentRow t2 (PG.singleDepth db1 c2) c2).id then
            updateCommentCommon t2 (commentRow t2 (PG.singleDepth db1 c2) c2) r
          else r)).length = db1.comments.length
      rw [List.length_map]
    · intro r hr hne
      show r ∈ db1.comments.map
          (fun r => if r.id = (commentRow t2 (PG.singleDepth db1 c2) c2).id then
            updateCommentCommon t2 (commentRow t2 (PG.singleDepth db1 c2) c2) r
          else r)
      exact mem_updIf_of_ne (fun r => r.id) _ _ hr (fun hcon => hne (hcon.trans hpid))
    · intro r1 hfind
      have hfind' : db1.comments.find? (fun r => r.id = c1.id) = some r1 := hfind
      have hk : r1.id = (commentRow t2 (PG.singleDepth db1 c2) c2).id := by
        have h1' : r1.id = c1.id := by simpa using List.find?_some hfind'
        rw [h1']
        exact hpid.symm
      refine ⟨updateCommentCommon t2 (commentRow t2 (PG.singleDepth db1 c2) c2) r1,
        ?_, rfl, rfl, rfl, rfl, rfl, rfl, rfl, rfl, rfl, rfl, rfl, rfl⟩
      show (db1.comments.map
          (fun r => if r.id = (commentRow t2 (PG.singleDepth db1 c2) c2).id then
            updateCommentCommon t2 (commentRow t2 (PG.singleDepth db1 c2) c2) r
          else r)).find? (fun r => r.id = c1.id) =
          some (updateCommentCommon t2 (commentRow t2 (PG.singleDepth db1 c2) c2) r1)
      exact updIf_find_upd (fun r => r.id)
        (commentRow t2 (PG.singleDepth db1 c2) c2).id c1.id
        (updateCommentCommon t2 (commentRow t2 (PG.singleDepth db1 c2) c2))
        hf db1.comments r1 hfind' hk
  · intro t1 t2 db c1 c2 db1 hid h1
    have hany : db1.comments.any (fun r => r.id = c1.id) := by
      unfold SQLite.saveComment at h1
      cases hu : upsertComment db.posts db.comments
          (commentRow t1 (SQLite.singleDepth c1) c1)
          (updateCommentCommon t1 (commentRow t1 (SQLite.singleDepth c1) c1)) with
      | none =>
        rw [hu] at h1
        injection h1 with _ h2
        exact Option.noConfusion h2
      | some cs =>
        rw [hu] at h1
        injection h1 with hdb _
        rw [← hdb]
        exact upsertComment_has_id db.posts db.comments
          (commentRow t1 (SQLite.singleDepth c1) c1)
          (updateCommentCommon t1 (commentRow t1 (SQLite.singleDepth c1) c1))
          (fun _ => rfl) cs hu
    have hpid : (commentRow t2 (SQLite.singleDepth c2) c2).id = c1.id := hid
    have hany2 : db1.comments.any
        (fun r => r.id = (commentRow t2 (SQLite.singleDepth c2) c2).id) := by
      simpa [hpid] using hany
    have hu2 : upsertComment db1.posts db1.comments
        (commentRow t2 (SQLite.singleDepth c2) c2)
        (updateCommentCommon t2 (commentRow t2 (SQLite.singleDepth c2) c2)) =
        some (db1.comments.map
          (fun r => if r.id = (commentRow t2 (SQLite.singleDepth c2) c2).id then
            updateCommentCommon t2 (commentRow t2 (SQLite.singleDepth c2) c2) r
          else r)) := by
      unfold upsertComment
      rw [if_pos hany2]
    have hsp : SQLite.saveComment t2 db1 c2 =
        ({ db1 with
            comments := db1.comments.map
              (fun r => if r.id = (commentRow t2 (SQLite.singleDepth c2) c2).id then
                updateCommentCommon t2 (commentRow t2 (SQLite.singleDepth c2) c2) r
              else r) }, none) := by
      unfold SQLite.saveComment
      rw [hu2]
    have hf : ∀ r : CommentRow,
        (updateCommentCommon t2 (commentRow t2 (SQLite.singleDepth c2) c2) r).id = r.id :=
      fun _ => rfl
    refine ⟨_, hsp, ?_, ?_, ?_⟩
    · show (db1.comments.map
          (fun r => if r.id = (commentRow t2 (SQLite.singleDepth c2) c2).id then
            updateCommentCommon t2 (commentRow t2 (SQLite.singleDepth c2) c2) r
          else r)).length = db1.comments.length
      rw [List.length_map]
    · intro r hr hne
      show r ∈ db1.comments.map
          (fun r => if r.id = (commentRow t2 (SQLite.singleDepth c2) c2).id then
            updateCommentCommon t2 (commentRow t2 (SQLite.singleDepth c2) c2) r
          else r)
      exact mem_updIf_of_ne (fun r => r.id) _ _ hr (fun hcon => hne (hcon.trans hpid))
    · intro r1 hfind
      have hfind' : db1.comments.find? (fun r => r.id = c1.id) = some r1 := hfind
      have hk : r1.id = (commentRow t2 (SQLite.singleDepth c2) c2).id := by
        have h1' : r1.id = c1.id := by simpa using List.find?_some hfind'
        rw [h1']
        exact hpid.symm
      refine ⟨updateCommentCommon t2 (commentRow t2 (SQLite.singleDepth c2) c2) r1,
        ?_, rfl, rfl, rfl, rfl, rfl, rfl, rfl, rfl, rfl, rfl, rfl, rfl⟩
      show (db1.comments.map
          (fun r => if r.id = (commentRow t2 (SQLite.singleDepth c2) c2).id then
            updateCommentCommon t2 (commentRow t2 (SQLite.singleDepth c2) c2) r
          else r)).find? (fun r => r.id = c1.id) =
          some (updateCommentCommon t2 (commentRow t2 (SQLite.singleDepth c2) c2) r1)
      exact updIf_find_upd (fun r => r.id)
        (commentRow t2 (SQLite.singleDepth c2) c2).id c1.id
        (updateCommentCommon t2 (commentRow t2 (SQLite.singleDepth c2) c2))
        hf db1.comments r1 hfind' hk
  · intro t1 t2 db s1 s2 db1 e1 hname h1
    have hany : db1.subs.any (fun r => r.name = s1.displayName) := by
      have hh := saveSubreddit_has_name t1 db s1
      rw [h1] at hh
      exact hh
    have hany2 : db1.subs.any (fun r => r.name = s2.displayName) := by
      simpa [hname] using hany
    have hs2 : saveSubreddit t2 db1 s2 =
        ({ db1 with
            subs := db1.subs.map (fun r =>
              if r.name = s2.displayName then
                { r with
                  displayName := s2.displayName
                  title := s2.title
                  description := s2.description
                  subscribers := s2.subscribers
                  raw := s2
                  lastSynced := t2 }
              else r) }, none) := by
      unfold saveSubreddit
      rw [if_pos hany2]
    have hf : ∀ r : SubRow,
        ({ r with
            displayName := s2.displayName
            title := s2.title
            description := s2.description
            subscribers := s2.subscribers
            raw := s2
            lastSynced := t2 } : SubRow).name = r.name :=
      fun _ => rfl
    refine ⟨_, hs2, ?_, ?_, ?_⟩
    · show (db1.subs.map (fun r =>
          if r.name = s2.displayName then
            { r with
              displayName := s2.displayName
              title := s2.title
              description := s2.description
              subscribers := s2.subscribers
              raw := s2
              lastSynced := t2 }
          else r)).length = db1.subs.length
      rw [List.length_map]
    · intro r hr hne
      show r ∈ db1.subs.map (fun r =>
          if r.name = s2.displayName then
            { r with
              displayName := s2.displayName
              title := s2.title
              description := s2.description
              subscribers := s2.subscribers
              raw := s2
              lastSynced := t2 }
          else r)
      exact mem_updIf_of_ne (fun r => r.name) _ _ hr
        (fun hcon => hne (hcon.trans hname))
    · intro r1 hfind
      have hfind' : db1.subs.find? (fun r => r.name = s1.displayName) = some r1 := hfind
      have hk : r1.name = s2.displayName := by
        have h1' : r1.name = s1.displayName :=
          by simpa using List.find?_some hfind'
        rw [h1']
        exact hname.symm
      refine ⟨({ r1 with
          displayName := s2.displayName
          title := s2.title
          description := s2.description
          subscribers := s2.subscribers
          raw := s2
          lastSynced := t2 } : SubRow), ?_, rfl, rfl, rfl, rfl, rfl, rfl, rfl, rfl⟩
      show (db1.subs.map (fun r =>
          if r.name = s2.displayName then
            { r with
              displayName := s2.displayName
              title := s2.title
              description := s2.description
              subscribers := s2.subscribers
              raw := s2
              lastSynced := t2 }
          else r)).find? (fun r => r.name = s1.displayName) =
          some ({ r1 with
            displayName := s2.displayName
            title := s2.title
            description := s2.description
            subscribers := s2.subscribers
            raw := s2
            lastSynced := t2 } : SubRow)
      exact updIf_find_upd (fun r => r.name) s2.displayName s1.displayName _ hf
        db1.subs r1 hfind' hk

def fixPost2 : Post := { fixPost with score := 50 }

/-- The store after saving `fixPost` at time 1. -/
def c6db1 : DB := (savePost 1 fixDb fixPost).1

/-- C6 witness: re-saving post `p1` with score 50 keeps one row under that
id, its original creation data, and reflects only the new score. -/
theorem c6_upsert_idempotent_witness :
    ∃ db2, savePost 2 c6db1 fixPost2 = (db2, none) ∧
      db2.posts.length = c6db1.posts.length ∧
      (∀ r ∈ c6db1.posts, r.id ≠ fixPost.id → r ∈ db2.posts) ∧
      (∀ r1, findPost c6db1.posts fixPost.id = some r1 →
        ∃ r2, findPost db2.posts fixPost.id = some r2 ∧ r2.id = r1.id ∧
          r2.created = r1.created ∧ r2.archivedAt = r1.archivedAt ∧
          r2.subreddit = r1.subreddit ∧ r2.author = r1.author ∧
          r2.title = r1.title ∧ r2.selftext = r1.selftext ∧
          r2.url = r1.url ∧ r2.isSelf = r1.isSelf ∧
          r2.score = fixPost2.score ∧ r2.numComments = fixPost2.numComments ∧
          r2.edited = editedCol fixPost2.isEdited fixPost2.editedTs ∧
          r2.raw = fixPost2 ∧ r2.lastUpdated = 2) :=
  c6_upsert_idempotent.1 1 2 fixDb fixPost fixPost2 c6db1 rfl (by decide)

/-! ## C1: the depth invariant -/

def c1batch1 : List Comment := [mkComment "c1" "" 0, mkComment "c2" "t1_c1" 1]

/-- The store after the first batch (`c1` at depth 0, `c2` at depth 1). -/
def c1dbA : DB :=
  match PG.saveComments 5 fixDb c1batch1 with
  | some (d, _) => d
  | none => fixDb

/-- The store after a second batch saving `c3` under `c2`. -/
def c1dbB : DB :=
  match PG.saveComments 6 c1dbA [mkComment "c3" "t1_c2" 2] with
  | some (d, _) => d
  | none => c1dbA

/-- C1 counterexample: save `c1` and its child `c2` in one Postgres batch
(depths 0 and 1), then save `c3` — a reply to `c2` — in a second batch.
Both saves succeed, but `c3` is stored with depth 1 while its stored parent
`c2` has depth 1: the claimed invariant `depth = depth(parent) + 1` fails
on the resulting store. -/
theorem c1_counterexample :
    PG.saveComments 5 fixDb c1batch1 = some (c1dbA, none) ∧
    PG.saveComments 6 c1dbA [mkComment "c3" "t1_c2" 2] = some (c1dbB, none) ∧
    ¬ depthInvariantClaim c1dbB := by
  refine ⟨by decide, by decide, fun h => ?_⟩
  have hc3 := (h (commentRow 6 1 (mkComment "c3" "t1_c2" 2)) (by decide)).2
    "c2" (commentRow 5 1 (mkComment "c2" "t1_c1" 1)) (by decide) (by decide)
  exact absurd hc3 (by decide)

/-- The §8 scenario batch: `c1` (root), `c2` (under `c1`), `c3` (under
`c2`), `c4` (under `c1`). -/
def c1scenario : List Comment :=
  [mkComment "c1" "" 0, mkComment "c2" "t1_c1" 1,
   mkComment "c3" "t1_c2" 2, mkComment "c4" "t1_c1" 3]

/-- C1 amended: depth 0 coincides with an absent stored parent at the
level of each path's depth computation, but the `depth(parent) + 1` law
holds only within the resolution scope of the saving call: the Postgres
single save adds one to the stored parent's depth when the parent is in
storage; SQLite assigns depth 1 to every parented Reply without consulting
the parent; and the Postgres batch resolver assigns the length of the
in-batch parent chain — its storage-fallback branch is unreachable, so a
parent id absent from the batch map resolves to 0 (hence the child to 1)
whatever the `comments` table holds.  A batch containing a whole subtree
(the specification's scenario) still receives correct relative depths. -/
theorem c1_amended :
    (∀ (db : DB) (c : Comment) (pid : String) (p : CommentRow),
      deriveParent c = some pid → findComment db.comments pid = some p →
      PG.singleDepth db c = p.depth + 1) ∧
    (∀ (db : DB) (c : Comment),
      PG.singleDepth db c = 0 ↔ deriveParent c = none) ∧
    (∀ c : Comment, SQLite.singleDepth c ≤ 1 ∧
      (SQLite.singleDepth c = 0 ↔ deriveParent c = none)) ∧
    (∀ (m : List (String × String)) (txc : List CommentRow) (fuel : Nat)
       (x : String) (cache : List (String × Nat)),
      List.lookup x cache = none →
      (List.lookup x m = none ∨ List.lookup x m = some "") →
      PG.calculateDepth m txc (fuel + 1) x cache = some (0, (x, 0) :: cache)) ∧
    (∀ (m : List (String × String)) (txc : List CommentRow) (fuel : Nat)
       (x p : String) (cache cache' : List (String × Nat)) (d : Nat),
      List.lookup x cache = none → List.lookup x m = some p → p ≠ "" →
      PG.calculateDepth m txc fuel p cache = some (d, cache') →
      PG.calculateDepth m txc (fuel + 1) x cache =
        some (d + 1, (x, d + 1) :: cache')) ∧
    (∀ (m : List (String × String)) (txc : List CommentRow) (fuel : Nat)
       (x p : String) (cache : List (String × Nat)),
      List.lookup x cache = none → List.lookup x m = some p → p ≠ "" →
      List.lookup p m = none → List.lookup p cache = none →
      PG.calculateDepth m txc (fuel + 2) x cache =
        some (1, (x, 1) :: (p, 0) :: cache)) ∧
    (PG.saveComments 5 fixDb c1scenario).map
        (fun r => r.1.comments.map (fun row => (row.id, row.depth))) =
      some [("c1", 0), ("c2", 1), ("c3", 2), ("c4", 1)] := by
  have hzero : ∀ (m : List (String × String)) (txc : List CommentRow) (fuel : Nat)
      (x : String) (cache : List (String × Nat)),
      List.lookup x cache = none →
      (List.lookup x m = none ∨ List.lookup x m = some "") →
      PG.calculateDepth m txc (fuel + 1) x cache = some (0, (x, 0) :: cache) := by
    intro m txc fuel x cache hc hm
    rcases hm with hm | hm <;>
      simp [PG.calculateDepth, hc, hm]
  have hstep : ∀ (m : List (String × String)) (txc : List CommentRow) (fuel : Nat)
      (x p : String) (cache cache' : List (String × Nat)) (d : Nat),
      List.lookup x cache = none → List.lookup x m = some p → p ≠ "" →
      PG.calculateDepth m txc fuel p cache = some (d, cache') →
      PG.calculateDepth m txc (fuel + 1) x cache =
        some (d + 1, (x, d + 1) :: cache') := by
    intro m txc fuel x p cache cache' d hc hm hp hrec
    simp [PG.calculateDepth, hc, hm, hp, hrec]
  refine ⟨?_, ?_, ?_, hzero, hstep, ?_, by decide⟩
  · intro db c pid p hpar hfind
    simp [PG.singleDepth, hpar, hfind]
  · intro db c
    cases hp : deriveParent c with
    | none => simp [PG.singleDepth, hp]
    | some pid =>
      cases hf : findComment db.comments pid with
      | none => simp [PG.singleDepth, hp, hf]
      | some p => simp [PG.singleDepth, hp, hf]
  · intro c
    cases hp : deriveParent c with
    | none => simp [SQLite.singleDepth, hp]
    | some pid => simp [SQLite.singleDepth, hp]
  · intro m txc fuel x p cache hc hm hp hpm hpc
    exact hstep m txc (fuel + 1) x p cache ((p, 0) :: cache) 0 hc hm hp
      (hzero m txc fuel p cache hpc (Or.inl hpm))

/-- C1 amended witness: with batch map `x -> pp` and a stored comment `pp`
of depth 7, the batch resolver still assigns `x` depth 1 — the store is
never consulted. -/
theorem c1_amended_witness :
    PG.calculateDepth [("x", "pp")] [commentRow 9 7 (mkComment "pp" "" 0)]
      5 "x" [] = some (1, [("x", 1), ("pp", 0)]) :=
  c1_amended.2.2.2.2.2.1 [("x", "pp")] [commentRow 9 7 (mkComment "pp" "" 0)]
    3 "x" "pp" [] (by decide) (by decide) (by decide) (by decide) (by decide)

/-! ## C4: tree reconstruction (Postgres path analysis) -/

namespace PG

/-- The canonical path of a row: the creation keys of its ancestor chain,
root first, obtained by following stored parent links (fuel-bounded;
`none` when a link dangles or the fuel runs out). -/
def canonPath (comments : List CommentRow) : Nat → CommentRow → Option (List Nat)
  | 0, _ => none
  | fuel + 1, r =>
    match r.parentId with
    | none => some [r.created]
    | some p =>
      match comments.find? (fun q => q.id = p) with
      | none => none
      | some pr => (canonPath comments fuel pr).map (fun pp => pp ++ [r.created])

/-- A sane stored thread: distinct ids, every stored parent belongs to the
same post as its child, and every parent chain reaches a root within the
table size (in particular no dangling parents and no cycles). -/
def WellThreaded (comments : List CommentRow) : Prop :=
  (comments.map (fun r => r.id)).Nodup ∧
  (∀ r ∈ comments, ∀ pr ∈ comments, r.parentId = some pr.id →
    pr.postId = r.postId) ∧
  ∀ r ∈ comments, (canonPath comments comments.length r).isSome

instance (comments : List CommentRow) : Decidable (WellThreaded comments) := by
  unfold WellThreaded
  infer_instance

lemma find_id_self {comments : List CommentRow}
    (hnd : (comments.map (fun r => r.id)).Nodup) {x : CommentRow}
    (hx : x ∈ comments) :
    comments.find? (fun q => q.id = x.id) = some x := by
  induction comments with
  | nil => exact absurd hx (List.not_mem_nil x)
  | cons y ys ih =>
    rcases List.mem_cons.mp hx with rfl | hx'
    · exact List.find?_cons_of_pos _ (by simp)
    · by_cases hy : y.id = x.id
      · exfalso
        have : x.id ∈ ys.map (fun r => r.id) := List.mem_map.mpr ⟨x, hx', rfl⟩
        rw [← hy] at this
        exact (List.nodup_cons.mp (by simpa using hnd)).1 this
      · rw [List.find?_cons_of_neg _ (by simpa using hy)]
        exact ih (List.nodup_cons.mp (by simpa using hnd)).2 hx'

lemma canonPath_root (comments : List CommentRow) (fuel : Nat)
    (r : CommentRow) (hp : r.parentId = none) :
    canonPath comments (fuel + 1) r = some [r.created] := by
  rw [canonPath, hp]

lemma canonPath_dangling (comments : List CommentRow) (fuel : Nat)
    (r : CommentRow) (p : String) (hp : r.parentId = some p)
    (hf : comments.find? (fun q => q.id = p) = none) :
    canonPath comments (fuel + 1) r = none := by
  rw [canonPath, hp]
  show (match comments.find? (fun q => q.id = p) with
      | none => none
      | some pr =>
        Option.map (fun pp => pp ++ [r.created]) (canonPath comments fuel pr)) =
    none
  rw [hf]

lemma canonPath_parent (comments : List CommentRow) (fuel : Nat)
    (r pr : CommentRow) (p : String) (hp : r.parentId = some p)
    (hf : comments.find? (fun q => q.id = p) = some pr) :
    canonPath comments (fuel + 1) r =
      Option.map (fun pp => pp ++ [r.created]) (canonPath comments fuel pr) := by
  rw [canonPath, hp]
  show (match comments.find? (fun q => q.id = p) with
      | none => none
      | some pr =>
        Option.map (fun pp => pp ++ [r.created]) (canonPath comments fuel pr)) =
    Option.map (fun pp => pp ++ [r.created]) (canonPath comments fuel pr)
  rw [hf]

lemma canonPath_succ (comments : List CommentRow) (fuel : Nat)
    (r : CommentRow) (path : List Nat)
    (h : canonPath comments fuel r = some path) :
    canonPath comments (fuel + 1) r = some path := by
  induction fuel generalizing r path with
  | zero => exact Option.noConfusion h
  | succ n ih =>
    cases hp : r.parentId with
    | none =>
      rw [canonPath_root comments n r hp] at h
      rw [canonPath_root comments (n + 1) r hp]
      exact h
    | some p =>
      cases hf : comments.find? (fun q => q.id = p) with
      | none =>
        rw [canonPath_dangling comments n r p hp hf] at h
        exact Option.noConfusion h
      | some pr =>
        rw [canonPath_parent comments n r pr p hp hf] at h
        rw [canonPath_parent comments (n + 1) r pr p hp hf]
        cases hc : canonPath comments n pr with
        | none => rw [hc] at h; exact Option.noConfusion h
        | some pp =>
          rw [hc] at h
          rw [ih pr pp hc]
          exact h

lemma canonPath_mono (comments : List CommentRow) {f1 f2 : Nat}
    (hle : f1 ≤ f2) (r : CommentRow) (path : List Nat)
    (h : canonPath comments f1 r = some path) :
    canonPath comments f2 r = some path := by
  induction hle with
  | refl => exact h
  | step _ ih => exact canonPath_succ comments _ r path ih

lemma canonPath_length_le (comments : List CommentRow) :
    ∀ (fuel : Nat) (r : CommentRow) (path : List Nat),
      canonPath comments fuel r = some path → path.length ≤ fuel := by
  intro fuel
  induction fuel with
  | zero => intro r path h; exact Option.noConfusion h
  | succ n ih =>
    intro r path h
    cases hp : r.parentId with
    | none =>
      rw [canonPath_root comments n r hp] at h
      injection h with h
      rw [← h]
      simp
    | some p =>
      cases hf : comments.find? (fun q => q.id = p) with
      | none =>
        rw [canonPath_dangling comments n r p hp hf] at h
        exact Option.noConfusion h
      | some pr =>
        rw [canonPath_parent comments n r pr p hp hf] at h
        cases hc : canonPath comments n pr with
        | none => rw [hc] at h; exact Option.noConfusion h
        | some pp =>
          rw [hc] at h
          have h' : some (pp ++ [r.created]) = some path := h
          injection h' with h'
          rw [← h']
          simpa using Nat.succ_le_succ (ih pr pp hc)

lemma canonPath_parent_inv (comments : List CommentRow) (fuel : Nat)
    (r : CommentRow) (p : String) (path : List Nat)
    (hp : r.parentId = some p)
    (h : canonPath comments (fuel + 1) r = some path) :
    ∃ pr pp, comments.find? (fun q => q.id = p) = some pr ∧
      canonPath comments fuel pr = some pp ∧ path = pp ++ [r.created] := by
  cases hf : comments.find? (fun q => q.id = p) with
  | none =>
    rw [canonPath_dangling comments fuel r p hp hf] at h
    exact Option.noConfusion h
  | some pr =>
    rw [canonPath_parent comments fuel r pr p hp hf] at h
    cases hc : canonPath comments fuel pr with
    | none => rw [hc] at h; exact Option.noConfusion h
    | some pp =>
      rw [hc] at h
      have h' : some (pp ++ [r.created]) = some path := h
      injection h' with h'
      exact ⟨pr, pp, rfl, hc, h'.symm⟩

lemma threadLevel_sound (comments : List CommentRow) (pid : String)
    (hwt : WellThreaded comments) :
    ∀ (n : Nat) (r : CommentRow) (path : List Nat),
      (r, path) ∈ threadLevel comments pid n →
      r ∈ comments ∧ r.postId = pid ∧
      canonPath comments (n + 1) r = some path := by
  intro n
  induction n with
  | zero =>
    intro r path h
    simp only [threadLevel, List.mem_map, List.mem_filter] at h
    obtain ⟨q, ⟨hq, hqp⟩, heq⟩ := h
    injection heq with h1 h2
    subst h1
    have hqp' := of_decide_eq_true hqp
    refine ⟨hq, hqp'.1, ?_⟩
    rw [canonPath_root comments 0 q hqp'.2]
    rw [h2]
  | succ n ih =>
    intro r path h
    simp only [threadLevel, List.mem_flatten, List.mem_map] at h
    obtain ⟨sub, ⟨prp, hpr, rfl⟩, hmem⟩ := h
    simp only [List.mem_map, List.mem_filter] at hmem
    obtain ⟨q, ⟨hq, hqpar⟩, heq⟩ := hmem
    injection heq with h1 h2
    subst h1
    obtain ⟨hprc, hprpid, hprcanon⟩ := ih prp.1 prp.2 hpr
    have hqpar' : q.parentId = some prp.1.id := of_decide_eq_true hqpar
    refine ⟨hq, ?_, ?_⟩
    · rw [← hwt.2.1 q hq prp.1 hprc hqpar']
      exact hprpid
    · rw [canonPath_parent comments (n + 1) q prp.1 prp.1.id hqpar'
        (find_id_self hwt.1 hprc), hprcanon]
      rw [← h2]
      rfl

lemma threadLevel_complete (comments : List CommentRow) (pid : String)
    (hwt : WellThreaded comments) :
    ∀ (fuel : Nat) (r : CommentRow) (path : List Nat),
      r ∈ comments → r.postId = pid →
      canonPath comments fuel r = some path →
      1 ≤ path.length ∧ (r, path) ∈ threadLevel comments pid (path.length - 1) := by
  intro fuel
  induction fuel with
  | zero => intro r path _ _ h; exact Option.noConfusion h
  | succ n ih =>
    intro r path hr hpid h
    cases hp : r.parentId with
    | none =>
      rw [canonPath_root comments n r hp] at h
      injection h with h
      subst h
      refine ⟨by simp, ?_⟩
      show (r, [r.created]) ∈ threadLevel comments pid 0
      simp only [threadLevel, List.mem_map, List.mem_filter]
      exact ⟨r, ⟨hr, by simp [hpid, hp]⟩, rfl⟩
    | some p =>
      obtain ⟨pr, pp, hf, hc, hpath⟩ := canonPath_parent_inv comments n r p path hp h
      have hprmem : pr ∈ comments := List.mem_of_find?_eq_some hf
      have hprid : pr.id = p := by simpa using List.find?_some hf
      have hppid : pr.postId = pid := by
        rw [hwt.2.1 r hr pr hprmem (by rw [hp, hprid])]
        exact hpid
      obtain ⟨hlen, hmem⟩ := ih pr pp hprmem hppid hc
      subst hpath
      refine ⟨by simp, ?_⟩
      have hidx : (pp ++ [r.created]).length - 1 = (pp.length - 1) + 1 := by
        rw [List.length_append]
        simp only [List.length_cons, List.length_nil]
        omega
      rw [hidx]
      simp only [threadLevel, List.mem_flatten, List.mem_map]
      refine ⟨(comments.filter (fun q => decide (q.parentId = some pr.id))).map
          (fun q => (q, pp ++ [q.created])), ⟨(pr, pp), hmem, rfl⟩, ?_⟩
      simp only [List.mem_map, List.mem_filter]
      exact ⟨r, ⟨hr, by simp [hp, hprid]⟩, rfl⟩

lemma threadPairs_sound (comments : List CommentRow) (pid : String)
    (hwt : WellThreaded comments) :
    ∀ e ∈ threadPairs comments pid, e.1 ∈ comments ∧ e.1.postId = pid ∧
      canonPath comments (comments.length + 1) e.1 = some e.2 := by
  intro e he
  simp only [threadPairs, List.mem_flatten, List.mem_map] at he
  obtain ⟨sub, ⟨n, hn, rfl⟩, hmem⟩ := he
  obtain ⟨h1, h2, h3⟩ := threadLevel_sound comments pid hwt n e.1 e.2 hmem
  refine ⟨h1, h2, ?_⟩
  have hle : n + 1 ≤ comments.length + 1 :=
    Nat.succ_le_succ (Nat.lt_succ_iff.mp (List.mem_range.mp hn))
  exact canonPath_mono comments hle e.1 e.2 h3

lemma threadPairs_complete (comments : List CommentRow) (pid : String)
    (hwt : WellThreaded comments) :
    ∀ r ∈ comments, r.postId = pid →
      ∃ path, (r, path) ∈ threadPairs comments pid := by
  intro r hr hpid
  obtain ⟨path, hpath⟩ := Option.isSome_iff_exists.mp (hwt.2.2 r hr)
  obtain ⟨hlen, hmem⟩ :=
    threadLevel_complete comments pid hwt comments.length r path hr hpid hpath
  refine ⟨path, ?_⟩
  simp only [threadPairs, List.mem_flatten, List.mem_map]
  refine ⟨threadLevel comments pid (path.length - 1),
    ⟨path.length - 1, ?_, rfl⟩, hmem⟩
  have := canonPath_length_le comments comments.length r path hpath
  exact List.mem_range.mpr (by omega)

lemma lt_append_singleton (l : List Nat) (a : Nat) : l < l ++ [a] := by
  induction l with
  | nil => exact List.Lex.nil
  | cons x xs ih => exact List.Lex.cons ih

lemma append_singleton_lt (pp : List Nat) (a b : Nat) (h : a < b) :
    pp ++ [a] < pp ++ [b] := by
  induction pp with
  | nil => exact List.Lex.rel h
  | cons x xs ih => exact List.Lex.cons ih

/-- In a path-sorted list, a strictly smaller path sits strictly earlier. -/
lemma sorted_lt_pos {l : List (CommentRow × List Nat)}
    (hs : List.Sorted pathLe l) (i j : Nat) (hi : i < l.length)
    (hj : j < l.length)
    (hlt : (l.get ⟨i, hi⟩).2 < (l.get ⟨j, hj⟩).2) : i < j := by
  rcases lt_trichotomy i j with h | h | h
  · exact h
  · exfalso
    subst h
    exact lt_irrefl _ hlt
  · exfalso
    have hle : pathLe (l.get ⟨j, hj⟩) (l.get ⟨i, hi⟩) :=
      List.pairwise_iff_get.mp hs ⟨j, hj⟩ ⟨i, hi⟩ h
    exact absurd (lt_of_lt_of_le hlt hle) (lt_irrefl _)

end PG

/-- C4 amended: on the Postgres backend, for a well-threaded store (unique
ids, same-post acyclic parent chains) `GetCommentsByPost` returns exactly
the Item's Replies — each one after its Parent and before its own
descendants, with siblings (same Parent, or all roots) in ascending
creation-time order, and an Item with no Replies yielding the empty
sequence.  On the SQLite backend the rows come back ordered by the
*text concatenation* of the creation keys along the path (the claim's
ascending creation-time sibling order does not hold there). -/
theorem c4_amended (comments : List CommentRow) (pid : String)
    (hwt : PG.WellThreaded comments) :
    (∀ e ∈ PG.threadSorted comments pid, e.1 ∈ comments ∧ e.1.postId = pid) ∧
    (∀ r ∈ comments, r.postId = pid →
      ∃ e ∈ PG.threadSorted comments pid, e.1 = r) ∧
    (∀ (i j : Nat) (hi : i < (PG.threadSorted comments pid).length)
       (hj : j < (PG.threadSorted comments pid).length),
      ((PG.threadSorted comments pid).get ⟨j, hj⟩).1.parentId =
        some (((PG.threadSorted comments pid).get ⟨i, hi⟩).1.id) → i < j) ∧
    (∀ (i j : Nat) (hi : i < (PG.threadSorted comments pid).length)
       (hj : j < (PG.threadSorted comments pid).length),
      ((PG.threadSorted comments pid).get ⟨i, hi⟩).1.parentId =
        ((PG.threadSorted comments pid).get ⟨j, hj⟩).1.parentId →
      ((PG.threadSorted comments pid).get ⟨i, hi⟩).1.created <
        ((PG.threadSorted comments pid).get ⟨j, hj⟩).1.created → i < j) ∧
    ((∀ r ∈ comments, r.postId ≠ pid) → PG.threadSorted comments pid = []) ∧
    (∀ db : DB, db.comments = comments →
      PG.getCommentsByPost db pid =
        (PG.threadSorted comments pid).map (fun e => rowToOut e.1)) ∧
    (∀ (cs : List CommentRow) (pid2 : String),
      List.Sorted SQLite.pathLe (SQLite.threadSorted cs pid2)) ∧
    (∀ (db : DB) (pid2 : String),
      SQLite.getCommentsByPost db pid2 =
        (SQLite.threadSorted db.comments pid2).map (fun e => rowToOut e.1)) := by
  have hperm : (PG.threadSorted comments pid).Perm (PG.threadPairs comments pid) :=
    List.perm_insertionSort PG.pathLe (PG.threadPairs comments pid)
  have hsorted : List.Sorted PG.pathLe (PG.threadSorted comments pid) :=
    List.sorted_insertionSort PG.pathLe (PG.threadPairs comments pid)
  have hsound : ∀ e ∈ PG.threadSorted comments pid,
      e.1 ∈ comments ∧ e.1.postId = pid ∧
      PG.canonPath comments (comments.length + 1) e.1 = some e.2 :=
    fun e he => PG.threadPairs_sound comments pid hwt e (hperm.mem_iff.mp he)
  refine ⟨fun e he => ⟨(hsound e he).1, (hsound e he).2.1⟩, ?_, ?_, ?_, ?_, ?_, ?_, ?_⟩
  · intro r hr hpid
    obtain ⟨path, hmem⟩ := PG.threadPairs_complete comments pid hwt r hr hpid
    exact ⟨(r, path), hperm.mem_iff.mpr hmem, rfl⟩
  · intro i j hi hj hpar
    obtain ⟨hmi, hpi, hci⟩ := hsound _ (List.get_mem (PG.threadSorted comments pid) i hi)
    obtain ⟨hmj, hpj, hcj⟩ := hsound _ (List.get_mem (PG.threadSorted comments pid) j hj)
    have hfind := PG.find_id_self hwt.1 hmi
    have h1 := PG.canonPath_parent comments (comments.length + 1)
      ((PG.threadSorted comments pid).get ⟨j, hj⟩).1
      ((PG.threadSorted comments pid).get ⟨i, hi⟩).1
      (((PG.threadSorted comments pid).get ⟨i, hi⟩).1.id) hpar hfind
    have h2 := PG.canonPath_succ comments (comments.length + 1)
      ((PG.threadSorted comments pid).get ⟨j, hj⟩).1
      ((PG.threadSorted comments pid).get ⟨j, hj⟩).2 hcj
    rw [hci] at h1
    rw [h2] at h1
    injection h1 with h1
    refine PG.sorted_lt_pos hsorted i j hi hj ?_
    rw [h1]
    exact PG.lt_append_singleton _ _
  · intro i j hi hj hpar hcreated
    obtain ⟨hmi, hpi, hci⟩ := hsound _ (List.get_mem (PG.threadSorted comments pid) i hi)
    obtain ⟨hmj, hpj, hcj⟩ := hsound _ (List.get_mem (PG.threadSorted comments pid) j hj)
    refine PG.sorted_lt_pos hsorted i j hi hj ?_
    cases hp : ((PG.threadSorted comments pid).get ⟨i, hi⟩).1.parentId with
    | none =>
      have hpj' : ((PG.threadSorted comments pid).get ⟨j, hj⟩).1.parentId = none := by
        rw [← hpar]
        exact hp
      have e1 := PG.canonPath_root comments comments.length
        ((PG.threadSorted comments pid).get ⟨i, hi⟩).1 hp
      have e2 := PG.canonPath_root comments comments.length
        ((PG.threadSorted comments pid).get ⟨j, hj⟩).1 hpj'
      rw [hci] at e1
      rw [hcj] at e2
      injection e1 with e1
      injection e2 with e2
      rw [e1, e2]
      exact List.Lex.rel hcreated
    | some p =>
      have hpj' : ((PG.threadSorted comments pid).get ⟨j, hj⟩).1.parentId = some p := by
        rw [← hpar]
        exact hp
      obtain ⟨pr1, pp1, hf1, hc1, he1⟩ := PG.canonPath_parent_inv comments
        comments.length ((PG.threadSorted comments pid).get ⟨i, hi⟩).1 p
        ((PG.threadSorted comments pid).get ⟨i, hi⟩).2 hp hci
      obtain ⟨pr2, pp2, hf2, hc2, he2⟩ := PG.canonPath_parent_inv comments
        comments.length ((PG.threadSorted comments pid).get ⟨j, hj⟩).1 p
        ((PG.threadSorted comments pid).get ⟨j, hj⟩).2 hpj' hcj
    -- identify the shared parent and its path
      rw [hf1] at hf2
      injection hf2 with hpr
      subst hpr
      rw [hc1] at hc2
      injection hc2 with hpp
      subst hpp
      rw [he1, he2]
      exact PG.append_singleton_lt _ _ _ hcreated
  · intro hnone
    refine List.eq_nil_iff_forall_not_mem.mpr ?_
    intro e he
    exact hnone e.1 (hsound e he).1 (hsound e he).2.1
  · intro db h
    unfold PG.getCommentsByPost
    rw [h]
  · intro cs pid2
    exact List.sorted_insertionSort SQLite.pathLe (SQLite.threadPairs cs pid2)
  · intro db pid2
    rfl

def c4batch : List Comment := [mkComment "c9" "" 9, mkComment "c10" "" 10]

/-- The SQLite store holding two root replies created at seconds 9 and 10. -/
def c4dbF : DB := (SQLite.saveComments 5 fixDb c4batch).1

/-- C4 counterexample: two sibling root Replies created at seconds 9 and
10 come back from the SQLite `GetCommentsByPost` in the order
`[10, 9]` — the text path `"10.0"` sorts before `"9.0"` — so the claimed
ascending creation-time order of siblings fails. -/
theorem c4_counterexample :
    SQLite.saveComments 5 fixDb c4batch = (c4dbF, none) ∧
    (SQLite.getCommentsByPost c4dbF "p1").map (fun c => (c.id, c.created)) =
      [("c10", 10), ("c9", 9)] ∧
    ¬ List.Sorted (fun a b : OutComment => a.created ≤ b.created)
        (SQLite.getCommentsByPost c4dbF "p1") :=
  ⟨by decide, by decide, by decide⟩

/-- The Postgres store holding the four-comment scenario thread. -/
def c4pgDb : DB :=
  match PG.saveComments 5 fixDb c1scenario with
  | some (d, _) => d
  | none => fixDb

/-- C4 amended witness: the scenario store is well-threaded and the query
returns (among the ordering guarantees) the nested reply `c3`. -/
theorem c4_amended_witness :
    ∃ e ∈ PG.threadSorted c4pgDb.comments "p1",
      e.1 = commentRow 5 2 (mkComment "c3" "t1_c2" 2) :=
  (c4_amended c4pgDb.comments "p1" (by decide)).2.1
    (commentRow 5 2 (mkComment "c3" "t1_c2" 2)) (by decide) (by decide)

end RedditStore